import Mathlib

/-!
Verification of the rusty-panda core: shallow embedding of the data model
(src/data/model.rs), filter engine (src/data/filter.rs), loader
(src/data/loader.rs) and colour mapping (src/color.rs), together with
proofs and refutations of the specification claims.

Modelling conventions:
* Rust f64 values are represented by their raw IEEE-754 bit pattern, a
  natural number below 2 to the 64.  The code only ever compares floats
  (f64 total_cmp and the IEEE equality used by the derived PartialEq),
  substitutes the f64 NAN constant, and formats them; all of these are
  functions of the bit pattern, so this embedding is exact.
* Rust BTreeMap and BTreeSet are represented extensionally as strictly
  ascending association lists and element lists under the relevant
  comparison function.
* Rust String comparison is byte-lexicographic on UTF-8, which equals
  lexicographic comparison of unicode scalar values; strings are compared
  by their character lists here.
* i64 is modelled as Int: the code only compares metadata integers, it
  never does wrapping arithmetic on them.
-/

/-- Three-way comparison induced by a linear order.  Shallow embedding of
Rust Ord::cmp on primitive types: Int for i64, Nat for the u8
discriminant, Bool with false less than true. -/
def cmpOfLO {α : Type} [LinearOrder α] (a b : α) : Ordering :=
  if a < b then .lt else if b < a then .gt else .eq

/-- Lawfulness of a comparison function: it decides equality, swapping its
arguments swaps the verdict, and the strict part is transitive. -/
structure LawCmp {α : Type} (c : α → α → Ordering) : Prop where
  eq_iff : ∀ a b, c a b = .eq ↔ a = b
  swap_eq : ∀ a b, (c a b).swap = c b a
  lt_trans : ∀ a b d, c a b = .lt → c b d = .lt → c a d = .lt

theorem cmpOfLO_eq_iff {α : Type} [LinearOrder α] (a b : α) :
    cmpOfLO a b = .eq ↔ a = b := by
  unfold cmpOfLO
  rcases lt_trichotomy a b with h | h | h
  · simp [h, ne_of_lt h]
  · simp [h, lt_irrefl]
  · simp [h, lt_asymm h, ne_of_gt h]

theorem cmpOfLO_lt_iff {α : Type} [LinearOrder α] (a b : α) :
    cmpOfLO a b = .lt ↔ a < b := by
  unfold cmpOfLO
  rcases lt_trichotomy a b with h | h | h
  · simp [h]
  · simp [h, lt_irrefl]
  · simp [h, lt_asymm h]

theorem cmpOfLO_gt_iff {α : Type} [LinearOrder α] (a b : α) :
    cmpOfLO a b = .gt ↔ b < a := by
  unfold cmpOfLO
  rcases lt_trichotomy a b with h | h | h
  · simp [h, lt_asymm h]
  · simp [h, lt_irrefl]
  · simp [h, lt_asymm h]

theorem cmpOfLO_swap {α : Type} [LinearOrder α] (a b : α) :
    (cmpOfLO a b).swap = cmpOfLO b a := by
  unfold cmpOfLO
  rcases lt_trichotomy a b with h | h | h
  · simp [h, lt_asymm h, Ordering.swap]
  · simp [h, lt_irrefl, Ordering.swap]
  · simp [h, lt_asymm h, Ordering.swap]

theorem lawCmp_cmpOfLO {α : Type} [LinearOrder α] : LawCmp (cmpOfLO (α := α)) where
  eq_iff := cmpOfLO_eq_iff
  swap_eq := cmpOfLO_swap
  lt_trans := by
    intro a b d hab hbd
    rw [cmpOfLO_lt_iff] at *
    exact lt_trans hab hbd

/-- Lawfulness transfers along an injective key function. -/
theorem LawCmp.comap {α β : Type} {c : β → β → Ordering} (hc : LawCmp c)
    (f : α → β) (hf : Function.Injective f) :
    LawCmp (fun a b => c (f a) (f b)) where
  eq_iff := by
    intro a b
    rw [hc.eq_iff]
    exact ⟨fun h => hf h, fun h => by rw [h]⟩
  swap_eq := fun a b => hc.swap_eq (f a) (f b)
  lt_trans := fun a b d hab hbd => hc.lt_trans (f a) (f b) (f d) hab hbd

theorem LawCmp.eq_refl {α : Type} {c : α → α → Ordering} (hc : LawCmp c) (a : α) :
    c a a = .eq := (hc.eq_iff a a).mpr rfl

theorem LawCmp.gt_iff_lt {α : Type} {c : α → α → Ordering} (hc : LawCmp c) (a b : α) :
    c a b = .gt ↔ c b a = .lt := by
  rw [← hc.swap_eq b a]
  cases c b a <;> simp [Ordering.swap]

theorem LawCmp.lt_ne {α : Type} {c : α → α → Ordering} (hc : LawCmp c) {a b : α}
    (h : c a b = .lt) : a ≠ b := by
  intro he
  rw [he, hc.eq_refl] at h
  exact Ordering.noConfusion h

/-! ### Character and string comparison

Rust compares String byte-lexicographically over UTF-8, which agrees with
lexicographic comparison of the unicode scalar value sequences. -/

def charCmp (a b : Char) : Ordering := cmpOfLO a b

theorem charCmp_lawful : LawCmp charCmp := lawCmp_cmpOfLO

/-- Lexicographic comparison of two lists given an element comparison. -/
def listCmp {α : Type} (c : α → α → Ordering) : List α → List α → Ordering
  | [], [] => .eq
  | [], _ :: _ => .lt
  | _ :: _, [] => .gt
  | a :: as, b :: bs =>
    match c a b with
    | .eq => listCmp c as bs
    | o => o

theorem listCmp_lawful {α : Type} {c : α → α → Ordering} (hc : LawCmp c) :
    LawCmp (listCmp c) where
  eq_iff := by
    intro a
    induction a with
    | nil => intro b; cases b <;> simp [listCmp]
    | cons x xs ih =>
      intro b
      cases b with
      | nil => simp [listCmp]
      | cons y ys =>
        simp only [listCmp]
        cases ho : c x y with
        | lt => simp [hc.lt_ne ho]
        | gt =>
          have hne : x ≠ y := fun he => hc.lt_ne ((hc.gt_iff_lt x y).mp ho) he.symm
          simp [hne]
        | eq =>
          have hxy := (hc.eq_iff x y).mp ho
          subst hxy
          simp [ih ys]
  swap_eq := by
    intro a
    induction a with
    | nil => intro b; cases b <;> simp [listCmp, Ordering.swap]
    | cons x xs ih =>
      intro b
      cases b with
      | nil => simp [listCmp, Ordering.swap]
      | cons y ys =>
        simp only [listCmp]
        cases ho : c x y with
        | lt =>
          have h2 : c y x = .gt := by rw [← hc.swap_eq x y, ho]; rfl
          rw [h2]
          rfl
        | gt =>
          have h2 : c y x = .lt := by rw [← hc.swap_eq x y, ho]; rfl
          rw [h2]
          rfl
        | eq =>
          have h2 : c y x = .eq := by rw [← hc.swap_eq x y, ho]; rfl
          rw [h2]
          exact ih ys
  lt_trans := by
    intro a
    induction a with
    | nil =>
      intro b d hab hbd
      cases b with
      | nil => exact hbd
      | cons y ys => cases d with
        | nil => simp [listCmp] at hbd
        | cons z zs => simp [listCmp]
    | cons x xs ih =>
      intro b d hab hbd
      cases b with
      | nil => simp [listCmp] at hab
      | cons y ys =>
        cases d with
        | nil => simp [listCmp] at hbd
        | cons z zs =>
          simp only [listCmp] at hab hbd ⊢
          cases hxy : c x y with
          | gt =>
            rw [hxy] at hab
            exact Ordering.noConfusion (show Ordering.gt = Ordering.lt from hab)
          | lt =>
            cases hyz : c y z with
            | gt =>
              rw [hyz] at hbd
              exact Ordering.noConfusion (show Ordering.gt = Ordering.lt from hbd)
            | lt =>
              rw [hc.lt_trans x y z hxy hyz]
            | eq =>
              rw [(hc.eq_iff y z).mp hyz] at hxy
              rw [hxy]
          | eq =>
            rw [hxy] at hab
            have hxy2 := (hc.eq_iff x y).mp hxy
            subst hxy2
            cases hyz : c x z with
            | gt =>
              rw [hyz] at hbd
              exact Ordering.noConfusion (show Ordering.gt = Ordering.lt from hbd)
            | lt => rfl
            | eq =>
              rw [hyz] at hbd
              exact ih ys zs hab hbd

/-- Rust String Ord::cmp: byte-lexicographic, embedded as lexicographic
comparison of the character lists. -/
def strCmp (a b : String) : Ordering := listCmp charCmp a.data b.data

theorem strCmp_lawful : LawCmp strCmp :=
  LawCmp.comap (listCmp_lawful charCmp_lawful) String.data
    (fun _ _ h => String.ext h)

/-! ### f64 as IEEE-754 bit patterns -/

/-- An f64 value, represented by its 64-bit IEEE-754 interchange pattern. -/
abbrev F64 := Fin (2 ^ 64)

/-- An f32 value, represented by its 32-bit IEEE-754 interchange pattern. -/
abbrev F32 := Fin (2 ^ 32)

/-- Bit pattern of Rust f64::NAN (the canonical quiet NaN). -/
def f64NaN : F64 := ⟨0x7FF8000000000000, by norm_num⟩

/-- Bit pattern of Rust f32::NAN. -/
def f32NaN : F32 := ⟨0x7FC00000, by norm_num⟩

/-- Bit pattern of f64 positive zero. -/
def f64PosZero : F64 := ⟨0, by norm_num⟩

/-- Bit pattern of f64 negative zero. -/
def f64NegZero : F64 := ⟨0x8000000000000000, by norm_num⟩

/-- Sort key of Rust f64::total_cmp.  The Rust implementation reads the
bits as an i64 and, for negative patterns, xors in the low 63 bits; on a
pattern b this evaluates to b itself when the sign bit is clear and to
the negative value -(b - 2 to the 63) - 1 when the sign bit is set. -/
def totalCmpKey (a : F64) : Int :=
  if a.val < 2 ^ 63 then (a.val : Int) else -((a.val : Int) - 2 ^ 63) - 1

theorem totalCmpKey_inj : Function.Injective totalCmpKey := by
  intro a b h
  unfold totalCmpKey at h
  apply Fin.ext
  split_ifs at h <;> omega

/-- Rust f64::total_cmp, the IEEE-754 totalOrder predicate. -/
def f64TotalCmp (a b : F64) : Ordering := cmpOfLO (totalCmpKey a) (totalCmpKey b)

theorem f64TotalCmp_lawful : LawCmp f64TotalCmp :=
  LawCmp.comap lawCmp_cmpOfLO totalCmpKey totalCmpKey_inj

/-- Whether a bit pattern encodes an IEEE-754 NaN (maximal exponent,
nonzero mantissa). -/
def f64IsNaN (a : F64) : Bool :=
  decide ((a.val / 2 ^ 52) % 2 ^ 11 = 0x7FF) && decide (a.val % 2 ^ 52 ≠ 0)

/-- Whether a bit pattern encodes a zero (positive or negative). -/
def f64IsZero (a : F64) : Bool :=
  decide (a.val = 0) || decide (a.val = 2 ^ 63)

/-- Rust f64 equality (the == of the derived PartialEq): IEEE-754
equality, under which NaN is unequal to everything including itself and
the two zeros are equal. -/
def f64Beq (a b : F64) : Bool :=
  !f64IsNaN a && !f64IsNaN b && (decide (a = b) || (f64IsZero a && f64IsZero b))

/-! ### MetadataValue (src/data/model.rs) -/

/-- Alias for String, usable where the MetadataValue constructor named
String shadows the type name. -/
abbrev Str := String

/-- Alias for Bool, usable where the MetadataValue constructor named Bool
shadows the type name. -/
abbrev Bl := Bool

/-- Rust enum MetadataValue: one dynamically typed metadata cell. -/
inductive MetadataValue : Type where
  | String (s : Str)
  | Integer (i : Int)
  | Float (f : F64)
  | Bool (b : Bl)
  | Date (d : Str)
  | Null
deriving DecidableEq

/-- Variant rank used by Ord::cmp (the discriminant function in
model.rs). -/
def MetadataValue.discriminant : MetadataValue → Nat
  | .Null => 0
  | .Bool _ => 1
  | .Integer _ => 2
  | .Float _ => 3
  | .String _ => 4
  | .Date _ => 5

/-- Same-variant payload comparison: the match arms of Ord::cmp that run
when the two discriminants agree.  The final catch-all arm returns
Equal; Ord::cmp only reaches it with equal discriminants, where it is
unreachable. -/
def MetadataValue.payloadCmp : MetadataValue → MetadataValue → Ordering
  | .Null, .Null => .eq
  | .Bool a, .Bool b => cmpOfLO a b
  | .Integer a, .Integer b => cmpOfLO a b
  | .Float a, .Float b => f64TotalCmp a b
  | .String a, .String b => strCmp a b
  | .Date a, .Date b => strCmp a b
  | _, _ => .eq

/-- Rust Ord::cmp for MetadataValue: compare discriminants first, then
the payloads of equal-variant values. -/
def MetadataValue.cmp (a b : MetadataValue) : Ordering :=
  if a.discriminant = b.discriminant then a.payloadCmp b
  else cmpOfLO a.discriminant b.discriminant

/-- Rust derived PartialEq for MetadataValue: fieldwise ==, hence the
Float arm uses IEEE-754 equality rather than the total order. -/
def MetadataValue.beq : MetadataValue → MetadataValue → Bl
  | .String a, .String b => a == b
  | .Integer a, .Integer b => a == b
  | .Float a, .Float b => f64Beq a b
  | .Bool a, .Bool b => a == b
  | .Date a, .Date b => a == b
  | .Null, .Null => true
  | _, _ => false

/-- Rust Display for MetadataValue.  The Float arm formats the value with
four decimal places, a float-printing routine modelled by the parameter
ffmt. -/
def MetadataValue.display (ffmt : F64 → Str) : MetadataValue → Str
  | .String s => s
  | .Integer i => toString i
  | .Float v => ffmt v
  | .Bool b => if b then "true" else "false"
  | .Date d => d
  | .Null => "<null>"

theorem MetadataValue.payloadCmp_eq_iff {a b : MetadataValue}
    (h : a.discriminant = b.discriminant) : a.payloadCmp b = .eq ↔ a = b := by
  cases a <;> cases b <;> simp [MetadataValue.discriminant] at h <;>
    simp [MetadataValue.payloadCmp, cmpOfLO_eq_iff,
      (f64TotalCmp_lawful).eq_iff, (strCmp_lawful).eq_iff]

theorem MetadataValue.payloadCmp_swap {a b : MetadataValue}
    (h : a.discriminant = b.discriminant) : (a.payloadCmp b).swap = b.payloadCmp a := by
  cases a <;> cases b <;> simp [MetadataValue.discriminant] at h <;>
    simp only [MetadataValue.payloadCmp] <;>
    first
    | rfl
    | exact cmpOfLO_swap _ _
    | exact (f64TotalCmp_lawful).swap_eq _ _
    | exact (strCmp_lawful).swap_eq _ _

theorem MetadataValue.payloadCmp_lt_trans {a b d : MetadataValue}
    (h1 : a.discriminant = b.discriminant) (h2 : b.discriminant = d.discriminant)
    (hab : a.payloadCmp b = .lt) (hbd : b.payloadCmp d = .lt) :
    a.payloadCmp d = .lt := by
  cases a <;> cases b <;> simp [MetadataValue.discriminant] at h1 <;>
    cases d <;> simp [MetadataValue.discriminant] at h2 <;>
    simp only [MetadataValue.payloadCmp] at hab hbd ⊢ <;>
    first
    | exact Ordering.noConfusion hab
    | exact (lawCmp_cmpOfLO).lt_trans _ _ _ hab hbd
    | exact (f64TotalCmp_lawful).lt_trans _ _ _ hab hbd
    | exact (strCmp_lawful).lt_trans _ _ _ hab hbd

theorem MetadataValue.cmp_lawful : LawCmp MetadataValue.cmp where
  eq_iff := by
    intro a b
    unfold MetadataValue.cmp
    by_cases h : a.discriminant = b.discriminant
    · rw [if_pos h]
      exact MetadataValue.payloadCmp_eq_iff h
    · rw [if_neg h]
      constructor
      · intro he
        exact absurd ((cmpOfLO_eq_iff _ _).mp he) h
      · intro he
        subst he
        exact absurd rfl h
  swap_eq := by
    intro a b
    unfold MetadataValue.cmp
    by_cases h : a.discriminant = b.discriminant
    · rw [if_pos h, if_pos h.symm]
      exact MetadataValue.payloadCmp_swap h
    · rw [if_neg h, if_neg (fun he => h he.symm)]
      exact cmpOfLO_swap _ _
  lt_trans := by
    intro a b d hab hbd
    unfold MetadataValue.cmp at hab hbd ⊢
    by_cases h1 : a.discriminant = b.discriminant <;>
      by_cases h2 : b.discriminant = d.discriminant
    · rw [if_pos h1] at hab
      rw [if_pos h2] at hbd
      rw [if_pos (h1.trans h2)]
      exact MetadataValue.payloadCmp_lt_trans h1 h2 hab hbd
    · rw [if_pos h1] at hab
      rw [if_neg h2] at hbd
      have hd : b.discriminant < d.discriminant := (cmpOfLO_lt_iff _ _).mp hbd
      rw [h1]
      rw [if_neg h2]
      exact hbd
    · rw [if_neg h1] at hab
      rw [if_pos h2] at hbd
      have hd : a.discriminant < b.discriminant := (cmpOfLO_lt_iff _ _).mp hab
      rw [h2] at hd
      rw [if_neg (ne_of_lt hd)]
      rw [← h2]
      exact hab
    · rw [if_neg h1] at hab
      rw [if_neg h2] at hbd
      have hd1 : a.discriminant < b.discriminant := (cmpOfLO_lt_iff _ _).mp hab
      have hd2 : b.discriminant < d.discriminant := (cmpOfLO_lt_iff _ _).mp hbd
      have hd : a.discriminant < d.discriminant := lt_trans hd1 hd2
      rw [if_neg (ne_of_lt hd)]
      exact (cmpOfLO_lt_iff _ _).mpr hd

/-! ### Ordered collections: Rust BTreeSet and BTreeMap, extensionally -/

/-- Rust BTreeSet::insert on the sorted element list; the existing element
is kept when an equal one is found. -/
def setInsert {α : Type} (c : α → α → Ordering) (v : α) : List α → List α
  | [] => [v]
  | x :: xs =>
    match c v x with
    | .lt => v :: x :: xs
    | .eq => x :: xs
    | .gt => x :: setInsert c v xs

/-- Rust BTreeSet::contains: membership under the comparison function. -/
def setContains {α : Type} (c : α → α → Ordering) (s : List α) (v : α) : Bool :=
  s.any (fun x => c v x == .eq)

/-- Rust BTreeMap::insert on the key-sorted association list: replace the
value and keep the stored key when the key is already present. -/
def mapInsert {α β : Type} (c : α → α → Ordering) (k : α) (v : β) :
    List (α × β) → List (α × β)
  | [] => [(k, v)]
  | (k1, v1) :: rest =>
    match c k k1 with
    | .lt => (k, v) :: (k1, v1) :: rest
    | .eq => (k1, v) :: rest
    | .gt => (k1, v1) :: mapInsert c k v rest

/-- Rust BTreeMap::get. -/
def mapFind? {α β : Type} (c : α → α → Ordering) (k : α) : List (α × β) → Option β
  | [] => none
  | (k1, v1) :: rest => if c k k1 = .eq then some v1 else mapFind? c k rest

/-- Rust BTreeMap::remove, i.e. dropping the entry of a key; on a map with
unique keys this equals filtering that entry out. -/
def mapErase {α β : Type} (c : α → α → Ordering) (k : α) (l : List (α × β)) :
    List (α × β) :=
  l.filter (fun p => !(c k p.1 == .eq))

theorem mem_setInsert {α : Type} {c : α → α → Ordering} (hc : LawCmp c) (v a : α) :
    ∀ s : List α, (a ∈ setInsert c v s ↔ a = v ∨ a ∈ s)
  | [] => by simp [setInsert]
  | x :: xs => by
    simp only [setInsert]
    cases ho : c v x with
    | lt => simp
    | eq =>
      have hvx := (hc.eq_iff v x).mp ho
      subst hvx
      simp only [List.mem_cons]
      tauto
    | gt =>
      simp only [List.mem_cons, mem_setInsert hc v a xs]
      tauto

theorem setInsert_ne_nil {α : Type} (c : α → α → Ordering) (v : α) :
    ∀ s : List α, setInsert c v s ≠ []
  | [] => by simp [setInsert]
  | x :: xs => by
    simp only [setInsert]
    cases c v x <;> simp

theorem setInsert_head {α : Type} (c : α → α → Ordering) (v : α) :
    ∀ (s : List α) (y : α), (setInsert c v s).head? = some y → y = v ∨ s.head? = some y
  | [], y => by
    intro h
    left
    have h2 : v = y := by simpa [setInsert] using h
    exact h2.symm
  | x :: xs, y => by
    simp only [setInsert]
    cases c v x with
    | lt =>
      intro h
      left
      have h2 : v = y := by simpa using h
      exact h2.symm
    | eq => intro h; right; exact h
    | gt => intro h; right; exact h

theorem chain'_setInsert {α : Type} {c : α → α → Ordering} (hc : LawCmp c) (v : α) :
    ∀ {s : List α}, List.Chain' (fun x y => c x y = .lt) s →
      List.Chain' (fun x y => c x y = .lt) (setInsert c v s)
  | [], _ => by simp [setInsert]
  | x :: xs, h => by
    simp only [setInsert]
    cases ho : c v x with
    | lt => exact List.Chain'.cons ho h
    | eq => exact h
    | gt =>
      have hxv : c x v = .lt := (hc.gt_iff_lt v x).mp ho
      rw [List.chain'_cons'] at h ⊢
      refine ⟨?_, chain'_setInsert hc v h.2⟩
      intro y hy
      rcases setInsert_head c v xs y hy with rfl | hy2
      · exact hxv
      · exact h.1 y hy2

theorem ordBeqEq_iff (o : Ordering) : (o == Ordering.eq) = true ↔ o = Ordering.eq := by
  cases o <;> decide

theorem setContains_iff {α : Type} {c : α → α → Ordering} (hc : LawCmp c)
    (s : List α) (v : α) : setContains c s v = true ↔ v ∈ s := by
  unfold setContains
  rw [List.any_eq_true]
  constructor
  · rintro ⟨x, hx, he⟩
    rw [ordBeqEq_iff] at he
    rw [(hc.eq_iff v x).mp he]
    exact hx
  · intro hv
    refine ⟨v, hv, ?_⟩
    rw [ordBeqEq_iff]
    exact hc.eq_refl v

theorem mapFind?_insert_self {α β : Type} {c : α → α → Ordering} (hc : LawCmp c)
    (k : α) (v : β) :
    ∀ l : List (α × β), mapFind? c k (mapInsert c k v l) = some v
  | [] => by simp [mapInsert, mapFind?, hc.eq_refl]
  | (k1, v1) :: rest => by
    simp only [mapInsert]
    cases ho : c k k1 with
    | lt => simp [mapFind?, hc.eq_refl]
    | eq => simp [mapFind?, ho]
    | gt =>
      have hne : ¬ c k k1 = .eq := by rw [ho]; exact fun h => Ordering.noConfusion h
      simp [mapFind?, hne, mapFind?_insert_self hc k v rest]

theorem mapFind?_insert_ne {α β : Type} {c : α → α → Ordering} (hc : LawCmp c)
    {k1 k : α} (v : β) (hne : k1 ≠ k) :
    ∀ l : List (α × β), mapFind? c k1 (mapInsert c k v l) = mapFind? c k1 l
  | [] => by
    have h1 : ¬ c k1 k = .eq := fun h => hne ((hc.eq_iff k1 k).mp h)
    simp [mapInsert, mapFind?, h1]
  | (k2, v2) :: rest => by
    simp only [mapInsert]
    cases ho : c k k2 with
    | lt =>
      have h1 : ¬ c k1 k = .eq := fun h => hne ((hc.eq_iff k1 k).mp h)
      simp [mapFind?, h1]
    | eq =>
      have hk : k = k2 := (hc.eq_iff k k2).mp ho
      subst hk
      have h1 : ¬ c k1 k = .eq := fun h => hne ((hc.eq_iff k1 k).mp h)
      simp [mapFind?, h1]
    | gt =>
      simp only [mapFind?]
      by_cases h2 : c k1 k2 = .eq
      · simp [h2]
      · simp [h2, mapFind?_insert_ne hc v hne rest]

theorem mapFind?_mem {α β : Type} {c : α → α → Ordering} (hc : LawCmp c)
    {k : α} {v : β} :
    ∀ {l : List (α × β)}, mapFind? c k l = some v → (k, v) ∈ l := by
  intro l
  induction l with
  | nil => intro h; simp [mapFind?] at h
  | cons p rest ih =>
    rcases p with ⟨k1, v1⟩
    intro h
    simp only [mapFind?] at h
    by_cases he : c k k1 = .eq
    · rw [if_pos he] at h
      have hk : k = k1 := (hc.eq_iff k k1).mp he
      subst hk
      simp [Option.some_inj.mp h]
    · rw [if_neg he] at h
      exact List.mem_cons_of_mem _ (ih h)

theorem mapFind?_of_mem {α β : Type} {c : α → α → Ordering} (hc : LawCmp c)
    {k : α} {v : β} {l : List (α × β)}
    (hp : l.Pairwise (fun p q => p.1 ≠ q.1)) (hm : (k, v) ∈ l) :
    mapFind? c k l = some v := by
  induction l with
  | nil => simp at hm
  | cons p rest ih =>
    rcases p with ⟨k1, v1⟩
    rcases List.mem_cons.mp hm with he | ht
    · rw [Prod.mk.injEq] at he
      rcases he with ⟨rfl, rfl⟩
      simp [mapFind?, hc.eq_refl]
    · have hk1 : k1 ≠ k := by
        have := (List.pairwise_cons.mp hp).1 (k, v) ht
        simpa using this
      have hne : ¬ c k k1 = .eq := fun h => hk1 ((hc.eq_iff k k1).mp h).symm
      simp only [mapFind?, if_neg hne]
      exact ih (List.pairwise_cons.mp hp).2 ht

theorem mapInsert_head {α β : Type} (c : α → α → Ordering) (k : α) (v : β) :
    ∀ (l : List (α × β)) (p : α × β), (mapInsert c k v l).head? = some p →
      p.1 = k ∨ ∃ q, l.head? = some q ∧ q.1 = p.1
  | [], p => by
    simp only [mapInsert, List.head?, Option.some.injEq]
    intro h
    left
    rw [← h]
  | (k1, v1) :: rest, p => by
    simp only [mapInsert]
    cases c k k1 with
    | lt =>
      simp only [List.head?, Option.some.injEq]
      intro h
      left
      rw [← h]
    | eq =>
      simp only [List.head?, Option.some.injEq]
      intro h
      right
      exact ⟨(k1, v1), rfl, by rw [← h]⟩
    | gt =>
      simp only [List.head?, Option.some.injEq]
      intro h
      right
      exact ⟨(k1, v1), rfl, by rw [← h]⟩

theorem chain'_mapInsert {α β : Type} {c : α → α → Ordering} (hc : LawCmp c)
    (k : α) (v : β) :
    ∀ {l : List (α × β)}, List.Chain' (fun p q => c p.1 q.1 = .lt) l →
      List.Chain' (fun p q => c p.1 q.1 = .lt) (mapInsert c k v l)
  | [], _ => by simp [mapInsert]
  | (k1, v1) :: rest, h => by
    simp only [mapInsert]
    cases ho : c k k1 with
    | lt => exact List.Chain'.cons ho h
    | eq =>
      rw [List.chain'_cons'] at h ⊢
      exact ⟨h.1, h.2⟩
    | gt =>
      have hk1 : c k1 k = .lt := (hc.gt_iff_lt k k1).mp ho
      rw [List.chain'_cons'] at h ⊢
      refine ⟨?_, chain'_mapInsert hc k v h.2⟩
      intro q hq
      rcases mapInsert_head c k v rest q hq with h1 | ⟨q2, hq2, hq3⟩
      · rw [h1]
        exact hk1
      · rw [← hq3]
        exact h.1 q2 hq2

theorem pairwise_key_ne_of_chain' {α β : Type} {c : α → α → Ordering} (hc : LawCmp c)
    {l : List (α × β)} (h : List.Chain' (fun p q => c p.1 q.1 = .lt) l) :
    l.Pairwise (fun p q => p.1 ≠ q.1) := by
  haveI : IsTrans (α × β) (fun p q => c p.1 q.1 = .lt) :=
    ⟨fun a b d hab hbd => hc.lt_trans _ _ _ hab hbd⟩
  exact (List.chain'_iff_pairwise.mp h).imp (fun hlt => hc.lt_ne hlt)

theorem pairwise_ne_of_chain' {α : Type} {c : α → α → Ordering} (hc : LawCmp c)
    {l : List α} (h : List.Chain' (fun x y => c x y = .lt) l) :
    l.Pairwise (fun x y => x ≠ y) := by
  haveI : IsTrans α (fun x y => c x y = .lt) :=
    ⟨fun a b d hab hbd => hc.lt_trans _ _ _ hab hbd⟩
  exact (List.chain'_iff_pairwise.mp h).imp (fun hlt => hc.lt_ne hlt)

theorem all_eq_all_filter {α : Type} (body q : α → Bool) :
    ∀ l : List α, (∀ x ∈ l, q x = false → body x = true) →
      l.all body = (l.filter q).all body
  | [] => by simp
  | x :: xs => by
    intro h
    have ih := all_eq_all_filter body q xs (fun y hy => h y (List.mem_cons_of_mem x hy))
    by_cases hq : q x = true
    · rw [List.filter_cons_of_pos hq]
      simp only [List.all_cons, ih]
    · have hb : body x = true := h x (List.mem_cons_self x xs) (by simpa using hq)
      rw [List.filter_cons_of_neg (by simpa using hq)]
      simp only [List.all_cons, hb, Bool.true_and, ih]

/-! ### Spectrum and SpectralDataset (src/data/model.rs) -/

/-- Rust struct Spectrum: one row of the source DataFrame.  The metadata
BTreeMap is a key-sorted association list. -/
structure Spectrum where
  x : List F64
  y : List F64
  metadata : List (String × MetadataValue)
deriving DecidableEq

/-- Rust struct SpectralDataset: all rows plus the derived column
indices. -/
structure SpectralDataset where
  spectra : List Spectrum
  column_names : List String
  unique_values : List (String × List MetadataValue)
deriving DecidableEq

/-- One step of the index-building scan in from_spectra: record one
metadata pair by inserting the value into the unique-value set of its
column (creating the entry if absent, like entry().or_default()). -/
def uvAdd (uv : List (String × List MetadataValue)) (col : String)
    (val : MetadataValue) : List (String × List MetadataValue) :=
  match mapFind? strCmp col uv with
  | some s => mapInsert strCmp col (setInsert MetadataValue.cmp val s) uv
  | none => mapInsert strCmp col (setInsert MetadataValue.cmp val []) uv

/-- Uncurried uvAdd, the shape used by the scan folds. -/
def uvAddPair (uv : List (String × List MetadataValue))
    (cv : String × MetadataValue) : List (String × List MetadataValue) :=
  uvAdd uv cv.1 cv.2

/-- Accumulator step of the from_spectra loop body: one metadata pair
updates the column-name set and the unique-value index. -/
def scanMeta (acc : List String × List (String × List MetadataValue))
    (cv : String × MetadataValue) :
    List String × List (String × List MetadataValue) :=
  (setInsert strCmp cv.1 acc.1, uvAddPair acc.2 cv)

/-- Rust SpectralDataset::from_spectra: scan every metadata pair of every
row, building the sorted column-name list and the per-column sorted
unique-value sets. -/
def SpectralDataset.from_spectra (spectra : List Spectrum) : SpectralDataset :=
  let acc := spectra.foldl (fun acc sp => sp.metadata.foldl scanMeta acc) ([], [])
  { spectra := spectra, column_names := acc.1, unique_values := acc.2 }

/-- Rust SpectralDataset::len. -/
def SpectralDataset.len (d : SpectralDataset) : Nat := d.spectra.length

/-! ### Filter engine (src/data/filter.rs) -/

/-- Rust type FilterState: column name to set of selected values. -/
abbrev FilterState := List (String × List MetadataValue)

/-- Rust init_filter_state: clone the unique-value index, so every value
of every column starts selected. -/
def init_filter_state (dataset : SpectralDataset) : FilterState :=
  dataset.unique_values

/-- Per-column test of the filtered_indices loop body, for one column of
the filter map against one spectrum. -/
def passesColumn (dataset : SpectralDataset) (sp : Spectrum) (col : String)
    (selected : List MetadataValue) : Bool :=
  if selected.isEmpty then false
  else if (match mapFind? strCmp col dataset.unique_values with
           | some all_vals => decide (selected.length = all_vals.length)
           | none => false) then true
  else
    match mapFind? strCmp col sp.metadata with
    | some val => setContains MetadataValue.cmp selected val
    | none => setContains MetadataValue.cmp selected MetadataValue.Null

/-- Whether a spectrum passes every active filter (the inner loop of
filtered_indices). -/
def spectrumPasses (dataset : SpectralDataset) (filters : FilterState)
    (sp : Spectrum) : Bool :=
  filters.all (fun q => passesColumn dataset sp q.1 q.2)

/-- Rust filtered_indices: indices of the spectra passing all filters, in
original order. -/
def filtered_indices (dataset : SpectralDataset) (filters : FilterState) :
    List Nat :=
  (dataset.spectra.enum.filter (fun p => spectrumPasses dataset filters p.2)).map
    Prod.fst

/-! ### Colour mapping (src/color.rs) -/

/-- egui Color32 (sRGB with alpha). -/
structure Color32 where
  r : Nat
  g : Nat
  b : Nat
  a : Nat
deriving DecidableEq

/-- egui Color32::GRAY. -/
def Color32.GRAY : Color32 := ⟨160, 160, 160, 255⟩

/-- Rust generate_palette: one colour per index in 0..n, the colour at
index i having hue i/n of the full circle at fixed saturation and
lightness.  The per-index hue-to-sRGB computation runs in 32-bit float
arithmetic inside the external palette crate and is modelled by the
parameter mk (taking the index and n). -/
def generate_palette (mk : Nat → Nat → Color32) (n : Nat) : List Color32 :=
  if n = 0 then [] else (List.range n).map (fun i => mk i n)

/-- Rust struct ColorMap. -/
structure ColorMap where
  column : String
  mapping : List (MetadataValue × Color32)
  default_color : Color32
deriving DecidableEq

/-- Rust ColorMap::new: zip the sorted unique values with the generated
palette; the fallback colour is gray. -/
def ColorMap.new (mk : Nat → Nat → Color32) (column : String)
    (unique_values : List MetadataValue) : ColorMap :=
  { column := column
    mapping := unique_values.zip (generate_palette mk unique_values.length)
    default_color := Color32.GRAY }

/-- Rust ColorMap::color_for: look the value up in the mapping, falling
back to the default colour. -/
def ColorMap.color_for (cm : ColorMap) (value : MetadataValue) : Color32 :=
  match mapFind? MetadataValue.cmp value cm.mapping with
  | some c => c
  | none => cm.default_color

/-- Rust ColorMap::legend_entries: the mapping in ascending order, with
each value rendered through Display (float formatting parameter ffmt). -/
def ColorMap.legend_entries (ffmt : F64 → String) (cm : ColorMap) :
    List (String × Color32) :=
  cm.mapping.map (fun p => (MetadataValue.display ffmt p.1, p.2))

/-! ### Loader (src/data/loader.rs)

The loaders are modelled from the in-memory representation the external
parsing crates hand to the code: serde_json values for JSON, the decoded
header and string records for CSV, and decoded Arrow record batches for
Parquet.  Primitive text-to-number parsing (str::parse) and the f32 to
f64 cast are taken as parameters; no claim depends on them. -/

/-- Load-time errors.  The Rust code reports anyhow string messages; each
constructor carries the data interpolated into the corresponding
message. -/
inductive LoadErr : Type where
  | unsupportedExtension (ext : String)
  | topLevelNotArray
  | rowNotObject (row : Nat)
  | missingOrInvalidArray (row : Nat) (col : String)
  | notANumber (row : Nat) (col : String) (idx : Nat)
  | shapeMismatch (row xLen yLen : Nat)
  | missingColumn (col : String)
  | nullValueInListColumn
  | notAListColumn
  | badListInnerType
  | rowReadFailure (row : Nat) (col : String) (e : LoadErr)
  | indexOutOfRange
deriving DecidableEq

/-- serde_json Number, modelled through its accessor interface: whether
it is i64-valued, its f64 value, and its textual rendering. -/
structure JNumber where
  asI64 : Option Int
  asF64 : Option F64
  render : String

/-- serde_json Value. -/
inductive Json : Type where
  | str (s : String)
  | num (n : JNumber)
  | jbool (b : Bool)
  | jnull
  | arr (elems : List Json)
  | obj (fields : List (String × Json))

/-- serde_json Value::as_array. -/
def Json.asArray? : Json → Option (List Json)
  | .arr elems => some elems
  | _ => none

/-- serde_json Value::as_f64 (a number answers with its float value,
everything else with none). -/
def Json.asF64? : Json → Option F64
  | .num n => n.asF64
  | _ => none

/-- serde_json Map::get on the sorted object fields. -/
def jsonGet? (fields : List (String × Json)) (k : String) : Option Json :=
  (fields.find? (fun p => p.1 == k)).map (fun p => p.2)

/-- Rust json_to_metadata: type-directed coercion of a JSON value to a
MetadataValue.  The stringified fallback for arrays and objects is
serde_json to_string, modelled by the parameter jdump. -/
def json_to_metadata (jdump : Json → String) : Json → MetadataValue
  | .str s => .String s
  | .num n =>
    match n.asI64 with
    | some i => .Integer i
    | none =>
      match n.asF64 with
      | some f => .Float f
      | none => .String n.render
  | .jbool b => .Bool b
  | .jnull => .Null
  | other => .String (jdump other)

/-- Element loop of Rust json_array_to_f64: each element must answer to
as_f64, otherwise the element index is reported. -/
def jsonNums (row : Nat) (col : String) : Nat → List Json → Except LoadErr (List F64)
  | _, [] => .ok []
  | j, v :: rest =>
    match v.asF64? with
    | some f =>
      match jsonNums row col (j + 1) rest with
      | .ok l => .ok (f :: l)
      | .error e => .error e
    | none => .error (.notANumber row col j)

/-- Rust json_array_to_f64: the field must exist and be an array of
numbers. -/
def json_array_to_f64 (val : Option Json) (row : Nat) (col : String) :
    Except LoadErr (List F64) :=
  match val with
  | some v =>
    match v.asArray? with
    | some elems => jsonNums row col 0 elems
    | none => .error (.missingOrInvalidArray row col)
  | none => .error (.missingOrInvalidArray row col)

/-- Metadata of one JSON row: every field except x and y, coerced and
collected into the BTreeMap. -/
def jsonMeta (jdump : Json → String) (fields : List (String × Json)) :
    List (String × MetadataValue) :=
  (fields.filter (fun p => !(p.1 == "x" || p.1 == "y"))).foldl
    (fun m p => mapInsert strCmp p.1 (json_to_metadata jdump p.2) m) []

/-- Row loop of Rust load_json. -/
def loadJsonRows (jdump : Json → String) : Nat → List Json → Except LoadErr (List Spectrum)
  | _, [] => .ok []
  | i, rec :: rest =>
    match rec with
    | .obj fields =>
      match json_array_to_f64 (jsonGet? fields "x") i "x" with
      | .error e => .error e
      | .ok x =>
        match json_array_to_f64 (jsonGet? fields "y") i "y" with
        | .error e => .error e
        | .ok y =>
          if x.length ≠ y.length then .error (.shapeMismatch i x.length y.length)
          else
            match loadJsonRows jdump (i + 1) rest with
            | .ok l => .ok ({ x := x, y := y, metadata := jsonMeta jdump fields } :: l)
            | .error e => .error e
    | _ => .error (.rowNotObject i)

/-- Rust load_json, from the parsed top-level serde_json value. -/
def load_json (jdump : Json → String) (root : Json) : Except LoadErr SpectralDataset :=
  match root.asArray? with
  | some records =>
    match loadJsonRows jdump 0 records with
    | .ok spectra => .ok (SpectralDataset.from_spectra spectra)
    | .error e => .error e
  | none => .error .topLevelNotArray

/-- Token loop of Rust parse_semicolon_floats: trim and float-parse every
semicolon-separated token.  parseF64 models str::parse of f64. -/
def csvNums (parseF64 : String → Option F64) (row : Nat) (col : String) :
    Nat → List String → Except LoadErr (List F64)
  | _, [] => .ok []
  | j, tok :: rest =>
    match parseF64 tok.trim with
    | some f =>
      match csvNums parseF64 row col (j + 1) rest with
      | .ok l => .ok (f :: l)
      | .error e => .error e
    | none => .error (.notANumber row col j)

/-- Rust parse_semicolon_floats. -/
def parse_semicolon_floats (parseF64 : String → Option F64) (s : String)
    (row : Nat) (col : String) : Except LoadErr (List F64) :=
  csvNums parseF64 row col 0 (s.splitOn ";")

/-- Rust guess_metadata_type: CSV cell type sniffing in order, with
parseI64 and parseF64 modelling str::parse of i64 and f64. -/
def guess_metadata_type (parseI64 : String → Option Int)
    (parseF64 : String → Option F64) (s : String) : MetadataValue :=
  if s.isEmpty then .Null
  else
    match parseI64 s with
    | some i => .Integer i
    | none =>
      match parseF64 s with
      | some f => .Float f
      | none =>
        if s == "true" || s == "false" then .Bool (s == "true")
        else .String s

/-- Metadata of one CSV record: every column except x and y, sniffed and
collected.  The csv reader guarantees each record has exactly as many
fields as the header, so the header lookup never falls to the default. -/
def csvMeta (parseI64 : String → Option Int) (parseF64 : String → Option F64)
    (headers : List String) (xIdx yIdx : Nat) (record : List String) :
    List (String × MetadataValue) :=
  (record.enum.filter (fun p => !(p.1 == xIdx || p.1 == yIdx))).foldl
    (fun m p => mapInsert strCmp (headers.getD p.1 "")
      (guess_metadata_type parseI64 parseF64 p.2) m) []

/-- Row loop of Rust load_csv, over the decoded string records. -/
def loadCsvRows (parseI64 : String → Option Int) (parseF64 : String → Option F64)
    (headers : List String) (xIdx yIdx : Nat) :
    Nat → List (List String) → Except LoadErr (List Spectrum)
  | _, [] => .ok []
  | rowNo, record :: rest =>
    match parse_semicolon_floats parseF64 (record.getD xIdx "") rowNo "x" with
    | .error e => .error e
    | .ok x =>
      match parse_semicolon_floats parseF64 (record.getD yIdx "") rowNo "y" with
      | .error e => .error e
      | .ok y =>
        if x.length ≠ y.length then .error (.shapeMismatch rowNo x.length y.length)
        else
          match loadCsvRows parseI64 parseF64 headers xIdx yIdx (rowNo + 1) rest with
          | .ok l =>
            .ok ({ x := x, y := y,
                   metadata := csvMeta parseI64 parseF64 headers xIdx yIdx record } :: l)
          | .error e => .error e

/-- Rust load_csv, from the decoded header row and string records. -/
def load_csv (parseI64 : String → Option Int) (parseF64 : String → Option F64)
    (headers : List String) (records : List (List String)) :
    Except LoadErr SpectralDataset :=
  match List.findIdx? (fun h => h == "x") headers with
  | none => .error (.missingColumn "x")
  | some xIdx =>
    match List.findIdx? (fun h => h == "y") headers with
    | none => .error (.missingColumn "y")
    | some yIdx =>
      match loadCsvRows parseI64 parseF64 headers xIdx yIdx 0 records with
      | .ok spectra => .ok (SpectralDataset.from_spectra spectra)
      | .error e => .error e

/-- A decoded Arrow column, by data type.  List slots and scalar cells
are Options: none is an Arrow null.  Other data types carry their debug
rendering and null mask. -/
inductive ACol : Type where
  | listF64 (slots : List (Option (List (Option F64))))
  | listF32 (slots : List (Option (List (Option F32))))
  | utf8 (vals : List (Option String))
  | int32 (vals : List (Option Int))
  | int64 (vals : List (Option Int))
  | float32 (vals : List (Option F32))
  | float64 (vals : List (Option F64))
  | boolean (vals : List (Option Bool))
  | otherType (typeName : String) (nulls : List Bool)
deriving DecidableEq

/-- Arrow Array::is_null at a row (out-of-range rows read as null; the
loader only asks about rows below the batch row count). -/
def ACol.isNull (col : ACol) (row : Nat) : Bool :=
  match col with
  | .listF64 slots => (slots.getD row none).isNone
  | .listF32 slots => (slots.getD row none).isNone
  | .utf8 vals => (vals.getD row none).isNone
  | .int32 vals => (vals.getD row none).isNone
  | .int64 vals => (vals.getD row none).isNone
  | .float32 vals => (vals.getD row none).isNone
  | .float64 vals => (vals.getD row none).isNone
  | .boolean vals => (vals.getD row none).isNone
  | .otherType _ nulls => nulls.getD row true

/-- Debug rendering of the Arrow data type (format of DataType), used by
the metadata fallback arm. -/
def ACol.dataTypeName : ACol → String
  | .listF64 _ => "List(Float64)"
  | .listF32 _ => "List(Float32)"
  | .utf8 _ => "Utf8"
  | .int32 _ => "Int32"
  | .int64 _ => "Int64"
  | .float32 _ => "Float32"
  | .float64 _ => "Float64"
  | .boolean _ => "Boolean"
  | .otherType typeName _ => typeName

/-- Rust extract_f64_list: a null list slot is an error; inside the list,
null entries are replaced by NAN (f64::NAN directly, or f32::NAN widened
through the cast parameter f32cast). -/
def extract_f64_list (f32cast : F32 → F64) (col : ACol) (row : Nat) :
    Except LoadErr (List F64) :=
  if col.isNull row then .error .nullValueInListColumn
  else
    match col with
    | .listF64 slots =>
      match slots[row]? with
      | some (some vals) => .ok (vals.map (fun o => o.getD f64NaN))
      | _ => .error .indexOutOfRange
    | .listF32 slots =>
      match slots[row]? with
      | some (some vals) => .ok (vals.map (fun o => f32cast (o.getD f32NaN)))
      | _ => .error .indexOutOfRange
    | _ => .error .notAListColumn

/-- Rust extract_metadata_value: null cell to Null, then type-directed
extraction with a string rendering of the data type as fallback. -/
def extract_metadata_value (f32cast : F32 → F64) (col : ACol) (row : Nat) :
    MetadataValue :=
  if col.isNull row then .Null
  else
    match col with
    | .utf8 vals => .String ((vals.getD row none).getD "")
    | .int32 vals => .Integer ((vals.getD row none).getD 0)
    | .int64 vals => .Integer ((vals.getD row none).getD 0)
    | .float32 vals => .Float (f32cast ((vals.getD row none).getD f32NaN))
    | .float64 vals => .Float ((vals.getD row none).getD f64NaN)
    | .boolean vals => .Bool ((vals.getD row none).getD false)
    | other => .String other.dataTypeName

/-- A decoded Arrow record batch: named columns and the row count. -/
structure Batch where
  fields : List (String × ACol)
  nRows : Nat
deriving DecidableEq

/-- Metadata of one Parquet row: every non-x/y column extracted at that
row and collected. -/
def parquetRowMeta (f32cast : F32 → F64) (metaCols : List (String × ACol))
    (row : Nat) : List (String × MetadataValue) :=
  metaCols.foldl
    (fun m p => mapInsert strCmp p.1 (extract_metadata_value f32cast p.2 row) m) []

/-- Row loop of Rust load_parquet over one batch: rows counted down by
the remaining count, reading x then y with row context, checking the
shape, then collecting metadata. -/
def parquetRows (f32cast : F32 → F64) (xcol ycol : ACol)
    (metaCols : List (String × ACol)) :
    Nat → Nat → Except LoadErr (List Spectrum)
  | _, 0 => .ok []
  | row, remaining + 1 =>
    match extract_f64_list f32cast xcol row with
    | .error e => .error (.rowReadFailure row "x" e)
    | .ok x =>
      match extract_f64_list f32cast ycol row with
      | .error e => .error (.rowReadFailure row "y" e)
      | .ok y =>
        if x.length ≠ y.length then .error (.shapeMismatch row x.length y.length)
        else
          match parquetRows f32cast xcol ycol metaCols (row + 1) remaining with
          | .ok l =>
            .ok ({ x := x, y := y,
                   metadata := parquetRowMeta f32cast metaCols row } :: l)
          | .error e => .error e

/-- One batch of Rust load_parquet: locate x and y by name, split off the
metadata columns, then run the row loop. -/
def parquetBatch (f32cast : F32 → F64) (batch : Batch) :
    Except LoadErr (List Spectrum) :=
  match List.findIdx? (fun p => p.1 == "x") batch.fields with
  | none => .error (.missingColumn "x")
  | some xIdx =>
    match List.findIdx? (fun p => p.1 == "y") batch.fields with
    | none => .error (.missingColumn "y")
    | some yIdx =>
      match batch.fields[xIdx]? with
      | none => .error .indexOutOfRange
      | some xf =>
        match batch.fields[yIdx]? with
        | none => .error .indexOutOfRange
        | some yf =>
          let metaCols :=
            (batch.fields.enum.filter (fun p => !(p.1 == xIdx || p.1 == yIdx))).map
              (fun p => p.2)
          parquetRows f32cast xf.2 yf.2 metaCols 0 batch.nRows

/-- Batch loop of Rust load_parquet: spectra of all batches concatenated
in order, any batch error aborting the load. -/
def parquetBatches (f32cast : F32 → F64) : List Batch → Except LoadErr (List Spectrum)
  | [] => .ok []
  | b :: rest =>
    match parquetBatch f32cast b with
    | .error e => .error e
    | .ok sps =>
      match parquetBatches f32cast rest with
      | .ok l => .ok (sps ++ l)
      | .error e => .error e

/-- Rust load_parquet, from the decoded record batches. -/
def load_parquet (f32cast : F32 → F64) (batches : List Batch) :
    Except LoadErr SpectralDataset :=
  match parquetBatches f32cast batches with
  | .ok spectra => .ok (SpectralDataset.from_spectra spectra)
  | .error e => .error e

/-! ### Invariants of the from_spectra index build -/

theorem mem_mapInsert {α β : Type} (c : α → α → Ordering) (k : α) (v : β) :
    ∀ (l : List (α × β)) (p : α × β), p ∈ mapInsert c k v l → p.2 = v ∨ p ∈ l
  | [], p => by
    intro h
    left
    have : p = (k, v) := by simpa [mapInsert] using h
    rw [this]
  | (k1, v1) :: rest, p => by
    simp only [mapInsert]
    cases c k k1 with
    | lt =>
      intro h
      rcases List.mem_cons.mp h with rfl | h2
      · left; rfl
      · right; exact h2
    | eq =>
      intro h
      rcases List.mem_cons.mp h with rfl | h2
      · left; rfl
      · right; exact List.mem_cons_of_mem _ h2
    | gt =>
      intro h
      rcases List.mem_cons.mp h with rfl | h2
      · right; exact List.mem_cons_self _ _
      · rcases mem_mapInsert c k v rest p h2 with h3 | h3
        · left; exact h3
        · right; exact List.mem_cons_of_mem _ h3

/-- Fold-invariant helper. -/
theorem foldl_invariant {α β : Type} (P : α → Prop) (f : α → β → α)
    (hstep : ∀ a b, P a → P (f a b)) :
    ∀ (l : List β) (a : α), P a → P (l.foldl f a)
  | [], _, h => h
  | b :: bs, a, h => foldl_invariant P f hstep bs (f a b) (hstep a b h)

/-- Key-sortedness is preserved when recording a metadata pair. -/
theorem uvAdd_sorted {uv : List (String × List MetadataValue)}
    (h : List.Chain' (fun p q => strCmp p.1 q.1 = .lt) uv)
    (col : String) (val : MetadataValue) :
    List.Chain' (fun p q => strCmp p.1 q.1 = .lt) (uvAdd uv col val) := by
  unfold uvAdd
  cases mapFind? strCmp col uv <;> exact chain'_mapInsert strCmp_lawful _ _ h

/-- Nonemptiness of every unique-value set is preserved when recording a
metadata pair. -/
theorem uvAdd_nonempty {uv : List (String × List MetadataValue)}
    (h : ∀ p ∈ uv, p.2 ≠ []) (col : String) (val : MetadataValue) :
    ∀ p ∈ uvAdd uv col val, p.2 ≠ [] := by
  unfold uvAdd
  cases mapFind? strCmp col uv with
  | none =>
    intro p hp
    rcases mem_mapInsert _ _ _ _ p hp with h2 | h2
    · rw [h2]; exact setInsert_ne_nil _ _ _
    · exact h p h2
  | some s =>
    intro p hp
    rcases mem_mapInsert _ _ _ _ p hp with h2 | h2
    · rw [h2]; exact setInsert_ne_nil _ _ _
    · exact h p h2

/-- The unique-value component of the from_spectra scan only depends on
the unique-value accumulator. -/
theorem scanMeta_snd :
    ∀ (pairs : List (String × MetadataValue)) acc,
      (pairs.foldl scanMeta acc).2 = pairs.foldl uvAddPair acc.2
  | [], _ => rfl
  | p :: ps, acc => scanMeta_snd ps (scanMeta acc p)

/-- The unique-value index built by from_spectra, as a plain fold. -/
theorem from_spectra_uv (spectra : List Spectrum) :
    (SpectralDataset.from_spectra spectra).unique_values
      = spectra.foldl (fun uv sp => sp.metadata.foldl uvAddPair uv) [] := by
  have key : ∀ (sps : List Spectrum) (acc : List String × List (String × List MetadataValue)),
      (sps.foldl (fun acc sp => sp.metadata.foldl scanMeta acc) acc).2
        = sps.foldl (fun uv sp => sp.metadata.foldl uvAddPair uv) acc.2 := by
    intro sps
    induction sps with
    | nil => intro acc; rfl
    | cons s rest ih =>
      intro acc
      rw [List.foldl_cons, List.foldl_cons, ih, scanMeta_snd]
  exact key spectra ([], [])

theorem from_spectra_uv_sorted (spectra : List Spectrum) :
    List.Chain' (fun p q => strCmp p.1 q.1 = .lt)
      (SpectralDataset.from_spectra spectra).unique_values := by
  rw [from_spectra_uv]
  exact foldl_invariant (fun uv => List.Chain' (fun p q => strCmp p.1 q.1 = .lt) uv)
    (fun uv sp => sp.metadata.foldl uvAddPair uv)
    (fun uv sp h =>
      foldl_invariant (fun uv2 => List.Chain' (fun p q => strCmp p.1 q.1 = .lt) uv2)
        uvAddPair (fun uv2 cv h2 => uvAdd_sorted h2 cv.1 cv.2)
        sp.metadata uv h)
    spectra [] List.chain'_nil

theorem from_spectra_uv_nonempty (spectra : List Spectrum) :
    ∀ p ∈ (SpectralDataset.from_spectra spectra).unique_values, p.2 ≠ [] := by
  rw [from_spectra_uv]
  exact foldl_invariant (fun uv => ∀ p ∈ uv, p.2 ≠ [])
    (fun uv sp => sp.metadata.foldl uvAddPair uv)
    (fun uv sp h =>
      foldl_invariant (fun uv2 => ∀ p ∈ uv2, p.2 ≠ [])
        uvAddPair (fun uv2 cv h2 => uvAdd_nonempty h2 cv.1 cv.2)
        sp.metadata uv h)
    spectra [] (fun p hp => absurd hp (List.not_mem_nil p))

theorem isEmpty_false_of_ne_nil {α : Type} {l : List α} (h : l ≠ []) :
    l.isEmpty = false := by
  cases l with
  | nil => exact absurd rfl h
  | cons x xs => rfl

/-- A column entry of a from_spectra index both looks itself up and is
nonempty, so its filter test is skipped as all-selected. -/
theorem passesColumn_of_uv_entry (sp : List Spectrum) (s : Spectrum)
    {col : String} {vals : List MetadataValue}
    (hm : mapFind? strCmp col (SpectralDataset.from_spectra sp).unique_values = some vals) :
    passesColumn (SpectralDataset.from_spectra sp) s col vals = true := by
  have hne : vals ≠ [] :=
    from_spectra_uv_nonempty sp (col, vals) (mapFind?_mem strCmp_lawful hm)
  unfold passesColumn
  rw [isEmpty_false_of_ne_nil hne]
  rw [hm]
  simp

theorem from_spectra_spectra (sp : List Spectrum) :
    (SpectralDataset.from_spectra sp).spectra = sp := rfl

/-- Claim C8: for every dataset (as built by from_spectra),
filtered_indices under the initial all-selected filter state returns
exactly the full index sequence 0, 1, ..., len-1 in order: the initial
filter state makes every row visible. -/
theorem C8_init_filter_all_visible (sp : List Spectrum) :
    filtered_indices (SpectralDataset.from_spectra sp)
      (init_filter_state (SpectralDataset.from_spectra sp))
      = List.range (SpectralDataset.from_spectra sp).len := by
  have hpass : ∀ s : Spectrum,
      spectrumPasses (SpectralDataset.from_spectra sp)
        (init_filter_state (SpectralDataset.from_spectra sp)) s = true := by
    intro s
    unfold spectrumPasses init_filter_state
    rw [List.all_eq_true]
    rintro ⟨col, vals⟩ hq
    exact passesColumn_of_uv_entry sp s
      (mapFind?_of_mem strCmp_lawful
        (pairwise_key_ne_of_chain' strCmp_lawful (from_spectra_uv_sorted sp)) hq)
  unfold filtered_indices
  rw [List.filter_eq_self.mpr (fun p hp => hpass p.2), List.enum_map_fst]
  rfl

/-- Claim C5: for every dataset (as built by from_spectra) and every
filter state, a column whose selection set equals its full distinct-value
set filters exactly like a filter state with that column removed. -/
theorem C5_full_selection_no_restriction (sp : List Spectrum) (filters : FilterState)
    (c : String) (V : List MetadataValue)
    (hkeys : filters.Pairwise (fun p q => p.1 ≠ q.1))
    (huv : mapFind? strCmp c (SpectralDataset.from_spectra sp).unique_values = some V)
    (hsel : mapFind? strCmp c filters = some V) :
    filtered_indices (SpectralDataset.from_spectra sp) filters
      = filtered_indices (SpectralDataset.from_spectra sp) (mapErase strCmp c filters) := by
  have hbody : ∀ s : Spectrum, ∀ p ∈ filters,
      (!(strCmp c p.1 == Ordering.eq)) = false →
      passesColumn (SpectralDataset.from_spectra sp) s p.1 p.2 = true := by
    intro s p hp hq
    have h3 : (strCmp c p.1 == Ordering.eq) = true := by simpa using hq
    have heq : strCmp c p.1 = .eq := (ordBeqEq_iff _).mp h3
    have hpc : p.1 = c := (((strCmp_lawful).eq_iff c p.1).mp heq).symm
    have hp2 : (p.1, p.2) ∈ filters := by rw [Prod.mk.eta]; exact hp
    have hfind : mapFind? strCmp p.1 filters = some p.2 :=
      mapFind?_of_mem strCmp_lawful hkeys hp2
    rw [hpc, hsel] at hfind
    have hpv : p.2 = V := (Option.some_inj.mp hfind).symm
    rw [hpc, hpv]
    exact passesColumn_of_uv_entry sp s huv
  have hrow : ∀ q : Nat × Spectrum,
      spectrumPasses (SpectralDataset.from_spectra sp) filters q.2
        = spectrumPasses (SpectralDataset.from_spectra sp) (mapErase strCmp c filters) q.2 := by
    intro q
    unfold spectrumPasses mapErase
    exact all_eq_all_filter _ _ filters (hbody q.2)
  unfold filtered_indices
  rw [List.filter_congr (fun q _ => hrow q)]

/-- Witness for C5 at a one-row dataset with one fully selected column. -/
theorem C5_witness :
    ([("a", [MetadataValue.Null])] : FilterState).Pairwise (fun p q => p.1 ≠ q.1)
  ∧ mapFind? strCmp "a"
      (SpectralDataset.from_spectra
        [{ x := [], y := [], metadata := [("a", MetadataValue.Null)] }]).unique_values
      = some [MetadataValue.Null]
  ∧ mapFind? strCmp "a" ([("a", [MetadataValue.Null])] : FilterState)
      = some [MetadataValue.Null]
  ∧ filtered_indices
      (SpectralDataset.from_spectra
        [{ x := [], y := [], metadata := [("a", MetadataValue.Null)] }])
      [("a", [MetadataValue.Null])]
      = filtered_indices
          (SpectralDataset.from_spectra
            [{ x := [], y := [], metadata := [("a", MetadataValue.Null)] }])
          (mapErase strCmp "a" [("a", [MetadataValue.Null])]) := by
  refine ⟨by simp, rfl, rfl, ?_⟩
  exact C5_full_selection_no_restriction
    [{ x := [], y := [], metadata := [("a", MetadataValue.Null)] }]
    [("a", [MetadataValue.Null])] "a" [MetadataValue.Null]
    (by simp) rfl rfl

theorem uvAdd_eq_some {uv : List (String × List MetadataValue)} {col : String}
    {s : List MetadataValue} (val : MetadataValue)
    (hf : mapFind? strCmp col uv = some s) :
    uvAdd uv col val = mapInsert strCmp col (setInsert MetadataValue.cmp val s) uv := by
  unfold uvAdd
  rw [hf]

theorem uvAdd_eq_none {uv : List (String × List MetadataValue)} {col : String}
    (val : MetadataValue) (hf : mapFind? strCmp col uv = none) :
    uvAdd uv col val = mapInsert strCmp col (setInsert MetadataValue.cmp val []) uv := by
  unfold uvAdd
  rw [hf]

/-- Recording one pair adds exactly that membership to the index. -/
theorem uvHas_uvAdd (uv : List (String × List MetadataValue)) (col : String)
    (val : MetadataValue) (c : String) (v : MetadataValue) :
    (∃ V, mapFind? strCmp c (uvAdd uv col val) = some V ∧ v ∈ V)
      ↔ (c = col ∧ v = val) ∨ (∃ V, mapFind? strCmp c uv = some V ∧ v ∈ V) := by
  by_cases hceq : c = col
  · subst hceq
    cases hf : mapFind? strCmp c uv with
    | some s =>
      rw [uvAdd_eq_some val hf]
      simp only [mapFind?_insert_self strCmp_lawful, Option.some.injEq]
      simp [mem_setInsert MetadataValue.cmp_lawful val v s]
    | none =>
      rw [uvAdd_eq_none val hf]
      simp only [mapFind?_insert_self strCmp_lawful, Option.some.injEq]
      simp [mem_setInsert MetadataValue.cmp_lawful val v []]
  · have hsame : mapFind? strCmp c (uvAdd uv col val) = mapFind? strCmp c uv := by
      unfold uvAdd
      cases mapFind? strCmp col uv <;>
        exact mapFind?_insert_ne strCmp_lawful _ hceq uv
    rw [hsame]
    simp [hceq]

theorem uvHas_foldPairs (c : String) (v : MetadataValue) :
    ∀ (pairs : List (String × MetadataValue)) (uv : List (String × List MetadataValue)),
      (∃ V, mapFind? strCmp c (pairs.foldl uvAddPair uv) = some V ∧ v ∈ V)
        ↔ (c, v) ∈ pairs ∨ (∃ V, mapFind? strCmp c uv = some V ∧ v ∈ V)
  | [], uv => by simp
  | p :: ps, uv => by
    rw [List.foldl_cons]
    rw [uvHas_foldPairs c v ps (uvAddPair uv p)]
    unfold uvAddPair
    rw [uvHas_uvAdd uv p.1 p.2 c v]
    simp only [List.mem_cons, Prod.ext_iff]
    tauto

theorem uvHas_foldSpectra (c : String) (v : MetadataValue) :
    ∀ (sps : List Spectrum) (uv : List (String × List MetadataValue)),
      (∃ V, mapFind? strCmp c
          (sps.foldl (fun uv s => s.metadata.foldl uvAddPair uv) uv) = some V ∧ v ∈ V)
        ↔ (∃ s ∈ sps, (c, v) ∈ s.metadata)
          ∨ (∃ V, mapFind? strCmp c uv = some V ∧ v ∈ V)
  | [], uv => by simp
  | s :: rest, uv => by
    rw [List.foldl_cons]
    rw [uvHas_foldSpectra c v rest (s.metadata.foldl uvAddPair uv)]
    rw [uvHas_foldPairs c v s.metadata uv]
    constructor
    · rintro (h | (h | h))
      · rcases h with ⟨s2, hs2, hm⟩
        exact Or.inl ⟨s2, List.mem_cons_of_mem s hs2, hm⟩
      · exact Or.inl ⟨s, List.mem_cons_self s rest, h⟩
      · exact Or.inr h
    · rintro (⟨s2, hs2, hm⟩ | h)
      · rcases List.mem_cons.mp hs2 with rfl | hs3
        · exact Or.inr (Or.inl hm)
        · exact Or.inl ⟨s2, hs3, hm⟩
      · exact Or.inr (Or.inr h)

/-- Claim C9: a value appears in the unique-value set of a column exactly
when some row stores that exact pair; a row that omits the column
contributes nothing, so Null appears only when stored explicitly. -/
theorem C9_unique_values_iff (sp : List Spectrum) (c : String) (v : MetadataValue) :
    (∃ V, mapFind? strCmp c (SpectralDataset.from_spectra sp).unique_values = some V ∧ v ∈ V)
      ↔ ∃ s ∈ (SpectralDataset.from_spectra sp).spectra, (c, v) ∈ s.metadata := by
  rw [from_spectra_uv, from_spectra_spectra]
  rw [uvHas_foldSpectra c v sp []]
  simp [mapFind?]

/-! ### Shape invariants of the loaders (claim C6) -/

theorem loadJsonRows_shape (jdump : Json → String) :
    ∀ (recs : List Json) (i : Nat) (l : List Spectrum),
      loadJsonRows jdump i recs = .ok l → ∀ s ∈ l, s.x.length = s.y.length
  | [], i, l => by
    intro h s hs
    have h2 : (Except.ok ([] : List Spectrum) : Except LoadErr (List Spectrum))
        = .ok l := h
    cases h2
    simp at hs
  | rec :: rest, i, l => by
    intro h s hs
    cases rec with
    | str s2 => exact Except.noConfusion h
    | num n => exact Except.noConfusion h
    | jbool b => exact Except.noConfusion h
    | jnull => exact Except.noConfusion h
    | arr elems => exact Except.noConfusion h
    | obj fields =>
      simp only [loadJsonRows] at h
      cases hx : json_array_to_f64 (jsonGet? fields "x") i "x" with
      | error e =>
        rw [hx] at h
        exact Except.noConfusion
          (show (Except.error e : Except LoadErr (List Spectrum)) = .ok l from h)
      | ok x =>
        rw [hx] at h
        cases hy : json_array_to_f64 (jsonGet? fields "y") i "y" with
        | error e =>
          rw [hy] at h
          exact Except.noConfusion
            (show (Except.error e : Except LoadErr (List Spectrum)) = .ok l from h)
        | ok y =>
          rw [hy] at h
          have h3 : (if x.length ≠ y.length then
                (Except.error (LoadErr.shapeMismatch i x.length y.length) :
                  Except LoadErr (List Spectrum))
              else
                match loadJsonRows jdump (i + 1) rest with
                | Except.ok l2 =>
                  Except.ok ({ x := x, y := y, metadata := jsonMeta jdump fields } :: l2)
                | Except.error e => Except.error e) = Except.ok l := h
          by_cases hlen : x.length ≠ y.length
          · rw [if_pos hlen] at h3
            exact Except.noConfusion h3
          · rw [if_neg hlen] at h3
            cases hrec : loadJsonRows jdump (i + 1) rest with
            | error e =>
              rw [hrec] at h3
              exact Except.noConfusion
                (show (Except.error e : Except LoadErr (List Spectrum)) = .ok l from h3)
            | ok l2 =>
              rw [hrec] at h3
              have h4 : (Except.ok
                  ({ x := x, y := y, metadata := jsonMeta jdump fields } :: l2) :
                  Except LoadErr (List Spectrum)) = .ok l := h3
              cases h4
              rcases List.mem_cons.mp hs with rfl | hs2
              · exact not_not.mp hlen
              · exact loadJsonRows_shape jdump rest (i + 1) l2 hrec s hs2

theorem loadCsvRows_shape (pI : String → Option Int) (pF : String → Option F64)
    (headers : List String) (xIdx yIdx : Nat) :
    ∀ (records : List (List String)) (rowNo : Nat) (l : List Spectrum),
      loadCsvRows pI pF headers xIdx yIdx rowNo records = .ok l →
      ∀ s ∈ l, s.x.length = s.y.length
  | [], rowNo, l => by
    intro h s hs
    have h2 : (Except.ok ([] : List Spectrum) : Except LoadErr (List Spectrum))
        = .ok l := h
    cases h2
    simp at hs
  | record :: rest, rowNo, l => by
    intro h s hs
    simp only [loadCsvRows] at h
    cases hx : parse_semicolon_floats pF (record.getD xIdx "") rowNo "x" with
    | error e =>
      rw [hx] at h
      exact Except.noConfusion
        (show (Except.error e : Except LoadErr (List Spectrum)) = .ok l from h)
    | ok x =>
      rw [hx] at h
      cases hy : parse_semicolon_floats pF (record.getD yIdx "") rowNo "y" with
      | error e =>
        rw [hy] at h
        exact Except.noConfusion
          (show (Except.error e : Except LoadErr (List Spectrum)) = .ok l from h)
      | ok y =>
        rw [hy] at h
        have h3 : (if x.length ≠ y.length then
              (Except.error (LoadErr.shapeMismatch rowNo x.length y.length) :
                Except LoadErr (List Spectrum))
            else
              match loadCsvRows pI pF headers xIdx yIdx (rowNo + 1) rest with
              | Except.ok l2 =>
                Except.ok (⟨x, y, csvMeta pI pF headers xIdx yIdx record⟩ :: l2)
              | Except.error e => Except.error e) = Except.ok l := h
        by_cases hlen : x.length ≠ y.length
        · rw [if_pos hlen] at h3
          exact Except.noConfusion h3
        · rw [if_neg hlen] at h3
          cases hrec : loadCsvRows pI pF headers xIdx yIdx (rowNo + 1) rest with
          | error e =>
            rw [hrec] at h3
            exact Except.noConfusion
              (show (Except.error e : Except LoadErr (List Spectrum)) = .ok l from h3)
          | ok l2 =>
            rw [hrec] at h3
            have h4 : (Except.ok
                ((⟨x, y, csvMeta pI pF headers xIdx yIdx record⟩ : Spectrum) :: l2) :
                Except LoadErr (List Spectrum)) = .ok l := h3
            cases h4
            rcases List.mem_cons.mp hs with rfl | hs2
            · exact not_not.mp hlen
            · exact loadCsvRows_shape pI pF headers xIdx yIdx rest (rowNo + 1) l2 hrec s hs2

theorem parquetRows_shape (f32cast : F32 → F64) (xcol ycol : ACol)
    (metaCols : List (String × ACol)) :
    ∀ (n row : Nat) (l : List Spectrum),
      parquetRows f32cast xcol ycol metaCols row n = .ok l →
      ∀ s ∈ l, s.x.length = s.y.length
  | 0, row, l => by
    intro h s hs
    have h2 : (Except.ok ([] : List Spectrum) : Except LoadErr (List Spectrum))
        = .ok l := h
    cases h2
    simp at hs
  | n + 1, row, l => by
    intro h s hs
    simp only [parquetRows] at h
    cases hx : extract_f64_list f32cast xcol row with
    | error e =>
      rw [hx] at h
      exact Except.noConfusion
        (show (Except.error (LoadErr.rowReadFailure row "x" e) :
          Except LoadErr (List Spectrum)) = .ok l from h)
    | ok x =>
      rw [hx] at h
      cases hy : extract_f64_list f32cast ycol row with
      | error e =>
        rw [hy] at h
        exact Except.noConfusion
          (show (Except.error (LoadErr.rowReadFailure row "y" e) :
            Except LoadErr (List Spectrum)) = .ok l from h)
      | ok y =>
        rw [hy] at h
        have h3 : (if x.length ≠ y.length then
              (Except.error (LoadErr.shapeMismatch row x.length y.length) :
                Except LoadErr (List Spectrum))
            else
              match parquetRows f32cast xcol ycol metaCols (row + 1) n with
              | Except.ok l2 =>
                Except.ok (⟨x, y, parquetRowMeta f32cast metaCols row⟩ :: l2)
              | Except.error e => Except.error e) = Except.ok l := h
        by_cases hlen : x.length ≠ y.length
        · rw [if_pos hlen] at h3
          exact Except.noConfusion h3
        · rw [if_neg hlen] at h3
          cases hrec : parquetRows f32cast xcol ycol metaCols (row + 1) n with
          | error e =>
            rw [hrec] at h3
            exact Except.noConfusion
              (show (Except.error e : Except LoadErr (List Spectrum)) = .ok l from h3)
          | ok l2 =>
            rw [hrec] at h3
            have h4 : (Except.ok
                ((⟨x, y, parquetRowMeta f32cast metaCols row⟩ : Spectrum) :: l2) :
                Except LoadErr (List Spectrum)) = .ok l := h3
            cases h4
            rcases List.mem_cons.mp hs with rfl | hs2
            · exact not_not.mp hlen
            · exact parquetRows_shape f32cast xcol ycol metaCols n (row + 1) l2 hrec s hs2

theorem parquetBatch_shape (f32cast : F32 → F64) (b : Batch) (l : List Spectrum)
    (h : parquetBatch f32cast b = .ok l) : ∀ s ∈ l, s.x.length = s.y.length := by
  unfold parquetBatch at h
  cases h1 : List.findIdx? (fun p => p.1 == "x") b.fields with
  | none =>
    rw [h1] at h
    exact fun s hs => absurd h (by simp)
  | some xIdx =>
    rw [h1] at h
    cases h2 : List.findIdx? (fun p => p.1 == "y") b.fields with
    | none =>
      rw [h2] at h
      exact fun s hs => absurd h (by simp)
    | some yIdx =>
      rw [h2] at h
      have hInner : (match b.fields[xIdx]? with
          | none => (Except.error LoadErr.indexOutOfRange : Except LoadErr (List Spectrum))
          | some xf =>
            match b.fields[yIdx]? with
            | none => Except.error LoadErr.indexOutOfRange
            | some yf =>
              parquetRows f32cast xf.2 yf.2
                ((b.fields.enum.filter (fun p => !(p.1 == xIdx || p.1 == yIdx))).map
                  (fun p => p.2)) 0 b.nRows) = Except.ok l := h
      cases h3 : b.fields[xIdx]? with
      | none =>
        rw [h3] at hInner
        exact fun s hs => absurd hInner (by simp)
      | some xf =>
        rw [h3] at hInner
        cases h4 : b.fields[yIdx]? with
        | none =>
          rw [h4] at hInner
          exact fun s hs => absurd hInner (by simp)
        | some yf =>
          rw [h4] at hInner
          have h5 : parquetRows f32cast xf.2 yf.2
              ((b.fields.enum.filter (fun p => !(p.1 == xIdx || p.1 == yIdx))).map
                (fun p => p.2)) 0 b.nRows = .ok l := hInner
          exact parquetRows_shape f32cast xf.2 yf.2 _ b.nRows 0 l h5

theorem parquetBatches_shape (f32cast : F32 → F64) :
    ∀ (batches : List Batch) (l : List Spectrum),
      parquetBatches f32cast batches = .ok l → ∀ s ∈ l, s.x.length = s.y.length
  | [], l => by
    intro h s hs
    have h2 : (Except.ok ([] : List Spectrum) : Except LoadErr (List Spectrum))
        = .ok l := h
    cases h2
    simp at hs
  | b :: rest, l => by
    intro h s hs
    simp only [parquetBatches] at h
    cases hb : parquetBatch f32cast b with
    | error e =>
      rw [hb] at h
      exact Except.noConfusion
        (show (Except.error e : Except LoadErr (List Spectrum)) = .ok l from h)
    | ok sps =>
      rw [hb] at h
      cases hr : parquetBatches f32cast rest with
      | error e =>
        rw [hr] at h
        exact Except.noConfusion
          (show (Except.error e : Except LoadErr (List Spectrum)) = .ok l from h)
      | ok l2 =>
        rw [hr] at h
        have h2 : (Except.ok (sps ++ l2) : Except LoadErr (List Spectrum)) = .ok l := h
        cases h2
        rcases List.mem_append.mp hs with h3 | h3
        · exact parquetBatch_shape f32cast b sps hb s h3
        · exact parquetBatches_shape f32cast rest l2 hr s h3

theorem load_json_shape (jdump : Json → String) (root : Json) (d : SpectralDataset)
    (h : load_json jdump root = .ok d) : ∀ s ∈ d.spectra, s.x.length = s.y.length := by
  unfold load_json at h
  cases hr : root.asArray? with
  | none =>
    rw [hr] at h
    exact fun s hs => absurd h (by simp)
  | some records =>
    rw [hr] at h
    have hInner : (match loadJsonRows jdump 0 records with
        | Except.ok spectra =>
          (Except.ok (SpectralDataset.from_spectra spectra) : Except LoadErr SpectralDataset)
        | Except.error e => Except.error e) = Except.ok d := h
    cases hl : loadJsonRows jdump 0 records with
    | error e =>
      rw [hl] at hInner
      exact fun s hs => absurd hInner (by simp)
    | ok spectra =>
      rw [hl] at hInner
      have h2 : (Except.ok (SpectralDataset.from_spectra spectra) :
          Except LoadErr SpectralDataset) = .ok d := hInner
      cases h2
      rw [from_spectra_spectra]
      exact loadJsonRows_shape jdump records 0 spectra hl

theorem load_csv_shape (pI : String → Option Int) (pF : String → Option F64)
    (headers : List String) (records : List (List String)) (d : SpectralDataset)
    (h : load_csv pI pF headers records = .ok d) :
    ∀ s ∈ d.spectra, s.x.length = s.y.length := by
  unfold load_csv at h
  cases h1 : List.findIdx? (fun h => h == "x") headers with
  | none =>
    rw [h1] at h
    exact fun s hs => absurd h (by simp)
  | some xIdx =>
    rw [h1] at h
    cases h2 : List.findIdx? (fun h => h == "y") headers with
    | none =>
      rw [h2] at h
      exact fun s hs => absurd h (by simp)
    | some yIdx =>
      rw [h2] at h
      have hInner : (match loadCsvRows pI pF headers xIdx yIdx 0 records with
          | Except.ok spectra =>
            (Except.ok (SpectralDataset.from_spectra spectra) : Except LoadErr SpectralDataset)
          | Except.error e => Except.error e) = Except.ok d := h
      cases hl : loadCsvRows pI pF headers xIdx yIdx 0 records with
      | error e =>
        rw [hl] at hInner
        exact fun s hs => absurd hInner (by simp)
      | ok spectra =>
        rw [hl] at hInner
        have h3 : (Except.ok (SpectralDataset.from_spectra spectra) :
            Except LoadErr SpectralDataset) = .ok d := hInner
        cases h3
        rw [from_spectra_spectra]
        exact loadCsvRows_shape pI pF headers xIdx yIdx records 0 spectra hl

theorem load_parquet_shape (f32cast : F32 → F64) (batches : List Batch)
    (d : SpectralDataset) (h : load_parquet f32cast batches = .ok d) :
    ∀ s ∈ d.spectra, s.x.length = s.y.length := by
  unfold load_parquet at h
  cases hl : parquetBatches f32cast batches with
  | error e =>
    rw [hl] at h
    exact fun s hs => absurd h (by simp)
  | ok spectra =>
    rw [hl] at h
    have h2 : (Except.ok (SpectralDataset.from_spectra spectra) :
        Except LoadErr SpectralDataset) = .ok d := h
    cases h2
    rw [from_spectra_spectra]
    exact parquetBatches_shape f32cast batches spectra hl

theorem loadJsonRows_shape_error (jdump : Json → String) (i : Nat)
    (fields : List (String × Json)) (rest : List Json) (x y : List F64)
    (hx : json_array_to_f64 (jsonGet? fields "x") i "x" = .ok x)
    (hy : json_array_to_f64 (jsonGet? fields "y") i "y" = .ok y)
    (hlen : x.length ≠ y.length) :
    loadJsonRows jdump i (Json.obj fields :: rest)
      = .error (.shapeMismatch i x.length y.length) := by
  simp only [loadJsonRows, hx, hy]
  rw [if_pos hlen]

theorem loadCsvRows_shape_error (pI : String → Option Int) (pF : String → Option F64)
    (headers : List String) (xIdx yIdx rowNo : Nat) (record : List String)
    (rest : List (List String)) (x y : List F64)
    (hx : parse_semicolon_floats pF (record.getD xIdx "") rowNo "x" = .ok x)
    (hy : parse_semicolon_floats pF (record.getD yIdx "") rowNo "y" = .ok y)
    (hlen : x.length ≠ y.length) :
    loadCsvRows pI pF headers xIdx yIdx rowNo (record :: rest)
      = .error (.shapeMismatch rowNo x.length y.length) := by
  simp only [loadCsvRows, hx, hy]
  rw [if_pos hlen]

theorem parquetRows_shape_error (f32cast : F32 → F64) (xcol ycol : ACol)
    (metaCols : List (String × ACol)) (row n : Nat) (x y : List F64)
    (hx : extract_f64_list f32cast xcol row = .ok x)
    (hy : extract_f64_list f32cast ycol row = .ok y)
    (hlen : x.length ≠ y.length) :
    parquetRows f32cast xcol ycol metaCols row (n + 1)
      = .error (.shapeMismatch row x.length y.length) := by
  simp only [parquetRows, hx, hy]
  rw [if_pos hlen]

/-- Claim C6: in every format, a row with x and y of different lengths
makes the load fail with a shape-mismatch error carrying that row index
and both lengths, and no dataset is returned; consequently every row of a
successfully loaded dataset has equally long x and y. -/
theorem C6_shape_mismatch :
    (∀ (jdump : Json → String) (root : Json) (d : SpectralDataset),
       load_json jdump root = .ok d → ∀ s ∈ d.spectra, s.x.length = s.y.length)
  ∧ (∀ (pI : String → Option Int) (pF : String → Option F64)
       (headers : List String) (records : List (List String)) (d : SpectralDataset),
       load_csv pI pF headers records = .ok d → ∀ s ∈ d.spectra, s.x.length = s.y.length)
  ∧ (∀ (f32cast : F32 → F64) (batches : List Batch) (d : SpectralDataset),
       load_parquet f32cast batches = .ok d → ∀ s ∈ d.spectra, s.x.length = s.y.length)
  ∧ (∀ (jdump : Json → String) (i : Nat) (fields : List (String × Json))
       (rest : List Json) (x y : List F64),
       json_array_to_f64 (jsonGet? fields "x") i "x" = .ok x →
       json_array_to_f64 (jsonGet? fields "y") i "y" = .ok y →
       x.length ≠ y.length →
       loadJsonRows jdump i (Json.obj fields :: rest)
         = .error (.shapeMismatch i x.length y.length))
  ∧ (∀ (pI : String → Option Int) (pF : String → Option F64)
       (headers : List String) (xIdx yIdx rowNo : Nat) (record : List String)
       (rest : List (List String)) (x y : List F64),
       parse_semicolon_floats pF (record.getD xIdx "") rowNo "x" = .ok x →
       parse_semicolon_floats pF (record.getD yIdx "") rowNo "y" = .ok y →
       x.length ≠ y.length →
       loadCsvRows pI pF headers xIdx yIdx rowNo (record :: rest)
         = .error (.shapeMismatch rowNo x.length y.length))
  ∧ (∀ (f32cast : F32 → F64) (xcol ycol : ACol) (metaCols : List (String × ACol))
       (row n : Nat) (x y : List F64),
       extract_f64_list f32cast xcol row = .ok x →
       extract_f64_list f32cast ycol row = .ok y →
       x.length ≠ y.length →
       parquetRows f32cast xcol ycol metaCols row (n + 1)
         = .error (.shapeMismatch row x.length y.length)) := by
  refine ⟨load_json_shape, load_csv_shape, load_parquet_shape, ?_, ?_, ?_⟩
  · intro jdump i fields rest x y hx hy hlen
    exact loadJsonRows_shape_error jdump i fields rest x y hx hy hlen
  · intro pI pF headers xIdx yIdx rowNo record rest x y hx hy hlen
    exact loadCsvRows_shape_error pI pF headers xIdx yIdx rowNo record rest x y hx hy hlen
  · intro f32cast xcol ycol metaCols row n x y hx hy hlen
    exact parquetRows_shape_error f32cast xcol ycol metaCols row n x y hx hy hlen

/-- Witness for C6: a concrete row with one x value too few fails with
the shape-mismatch error naming row 0 and lengths 0 and 1, in both the
JSON and the Parquet row loop. -/
theorem C6_witness :
    loadJsonRows (fun _ => "") 0
      [Json.obj [("x", Json.arr []), ("y", Json.arr [Json.num ⟨none, some f64NaN, ""⟩])]]
      = .error (.shapeMismatch 0 0 1)
  ∧ parquetRows (fun _ => f64NaN) (ACol.listF64 [some []])
      (ACol.listF64 [some [some f64NaN]]) [] 0 1
      = .error (.shapeMismatch 0 0 1) := by
  constructor
  · exact C6_shape_mismatch.2.2.2.1 (fun _ => "") 0
      [("x", Json.arr []), ("y", Json.arr [Json.num ⟨none, some f64NaN, ""⟩])] []
      [] [f64NaN] rfl rfl (by decide)
  · exact C6_shape_mismatch.2.2.2.2.2 (fun _ => f64NaN) (ACol.listF64 [some []])
      (ACol.listF64 [some [some f64NaN]]) [] 0 0 [] [f64NaN] rfl rfl (by decide)

/-! ### Claims about MetadataValue ordering and equality (C1, C4) -/

/-- Claim C1, evaluated at the failing inputs (the claim is right and the
code has a bug): with equality the derived PartialEq and comparison the
manual Ord, at a = b = Float(NaN) none of a<b, a==b, b<a holds (NaN ==
NaN is false under the derived fieldwise ==, while total_cmp says
Equal), and at a = Float(-0.0), b = Float(0.0) two of them hold at once
(IEEE == says equal, total_cmp says less).  The manual impl Eq for
MetadataValue promises a reflexive equality consistent with Ord, so the
derived PartialEq is the slip; exactly-one-of-three fails. -/
theorem C1_trichotomy_fails :
    MetadataValue.beq (.Float f64NaN) (.Float f64NaN) = false
  ∧ MetadataValue.cmp (.Float f64NaN) (.Float f64NaN) = .eq
  ∧ MetadataValue.beq (.Float f64NegZero) (.Float f64PosZero) = true
  ∧ MetadataValue.cmp (.Float f64NegZero) (.Float f64PosZero) = .lt := by
  refine ⟨?_, ?_, ?_, ?_⟩ <;> decide

/-- Variant rank comparison as claim C4 words it: String and Date share
rank 4 and ties within a rank are broken lexically.  This follows the
specification text, for comparison against the code. -/
def specRankCmpC4 (a b : MetadataValue) : Ordering :=
  let rank : MetadataValue → Nat := fun v =>
    match v with
    | .Null => 0
    | .Bool _ => 1
    | .Integer _ => 2
    | .Float _ => 3
    | .String _ => 4
    | .Date _ => 4
  if rank a ≠ rank b then cmpOfLO (rank a) (rank b)
  else
    match a, b with
    | .String s1, .String s2 => strCmp s1 s2
    | .String s1, .Date s2 => strCmp s1 s2
    | .Date s1, .String s2 => strCmp s1 s2
    | .Date s1, .Date s2 => strCmp s1 s2
    | .Bool x, .Bool y => cmpOfLO x y
    | .Integer x, .Integer y => cmpOfLO x y
    | .Float x, .Float y => f64TotalCmp x y
    | _, _ => .eq

/-- Claim C4 counterexample: at a = String("b"), b = Date("a") the code
compares by the distinct ranks 4 and 5 and answers Less, while the
claimed shared String-Date rank with lexical tie-break answers Greater:
String and Date do not share a rank in the code. -/
theorem C4_counterexample :
    MetadataValue.cmp (.String "b") (.Date "a") = .lt
  ∧ specRankCmpC4 (.String "b") (.Date "a") = .gt
  ∧ Ordering.lt ≠ Ordering.gt := by
  refine ⟨?_, ?_, ?_⟩ <;> decide

/-- Claim C4 (amended): values of different variants compare by the fixed
variant rank Null 0 < Bool 1 < Integer 2 < Float 3 < String 4 < Date 5
(String strictly before Date, no shared rank), and they are never equal,
neither under cmp nor under the derived PartialEq. -/
theorem C4_variant_rank (a b : MetadataValue)
    (h : a.discriminant ≠ b.discriminant) :
    MetadataValue.cmp a b = cmpOfLO a.discriminant b.discriminant
  ∧ MetadataValue.cmp a b ≠ .eq
  ∧ MetadataValue.beq a b = false := by
  refine ⟨?_, ?_, ?_⟩
  · unfold MetadataValue.cmp
    rw [if_neg h]
  · unfold MetadataValue.cmp
    rw [if_neg h]
    intro he
    exact h ((cmpOfLO_eq_iff _ _).mp he)
  · cases a <;> cases b <;> first | rfl | exact absurd rfl h

/-- Witness for C4 at Null versus Bool(true). -/
theorem C4_witness :
    (MetadataValue.Null).discriminant ≠ (MetadataValue.Bool true).discriminant
  ∧ MetadataValue.cmp MetadataValue.Null (MetadataValue.Bool true)
      = cmpOfLO (MetadataValue.Null).discriminant (MetadataValue.Bool true).discriminant
  ∧ MetadataValue.cmp MetadataValue.Null (MetadataValue.Bool true) ≠ .eq
  ∧ MetadataValue.beq MetadataValue.Null (MetadataValue.Bool true) = false := by
  have h := C4_variant_rank MetadataValue.Null (MetadataValue.Bool true) (by decide)
  exact ⟨by decide, h.1, h.2.1, h.2.2⟩

/-! ### Claim C2: nulls in parquet numeric list columns -/

/-- Claim C2 counterexample: a parquet batch whose x and y lists each
contain a null entry loads successfully, the entries read as NaN; so a
null entry inside the numeric list does not fail the load. -/
theorem C2_counterexample :
    load_parquet (fun _ => f64NaN)
      [{ fields := [("x", ACol.listF64 [some [none]]),
                    ("y", ACol.listF64 [some [none]])], nRows := 1 }]
      = .ok (SpectralDataset.from_spectra
          [{ x := [f64NaN], y := [f64NaN], metadata := [] }]) := by
  rfl

/-- Claim C2 (amended): a null LIST SLOT for x or y is an error for that
row (null value in list column, wrapped in the row read context), while a
null entry INSIDE the numeric list is not an error: the entry is read as
NaN. -/
theorem C2_null_semantics :
    (∀ (f32cast : F32 → F64) (slots : List (Option (List (Option F64)))) (row : Nat),
       slots[row]? = some none →
       extract_f64_list f32cast (ACol.listF64 slots) row
         = .error .nullValueInListColumn)
  ∧ (∀ (f32cast : F32 → F64) (slots : List (Option (List (Option F64))))
       (row : Nat) (vals : List (Option F64)),
       slots[row]? = some (some vals) →
       extract_f64_list f32cast (ACol.listF64 slots) row
         = .ok (vals.map (fun o => o.getD f64NaN)))
  ∧ (∀ (f32cast : F32 → F64) (xcol ycol : ACol) (metaCols : List (String × ACol))
       (row n : Nat), xcol.isNull row = true →
       parquetRows f32cast xcol ycol metaCols row (n + 1)
         = .error (.rowReadFailure row "x" .nullValueInListColumn)) := by
  refine ⟨?_, ?_, ?_⟩
  · intro f32cast slots row h
    have hnull : (ACol.listF64 slots).isNull row = true := by
      simp [ACol.isNull, List.getD_eq_getElem?_getD, h]
    unfold extract_f64_list
    rw [if_pos hnull]
  · intro f32cast slots row vals h
    have hnn : (ACol.listF64 slots).isNull row = false := by
      simp [ACol.isNull, List.getD_eq_getElem?_getD, h]
    simp only [extract_f64_list, hnn, h]
    rfl
  · intro f32cast xcol ycol metaCols row n h
    have hx : extract_f64_list f32cast xcol row = .error .nullValueInListColumn := by
      unfold extract_f64_list
      rw [if_pos h]
    simp only [parquetRows, hx]

/-- Witness for C2: a concrete null list slot errors, and a concrete list
with a null entry and a zero entry reads as NaN followed by zero. -/
theorem C2_witness :
    (([none] : List (Option (List (Option F64))))[0]? = some none
  ∧ extract_f64_list (fun _ => f64NaN) (ACol.listF64 [none]) 0
      = .error .nullValueInListColumn)
  ∧ (([some [none, some f64PosZero]] :
        List (Option (List (Option F64))))[0]? = some (some [none, some f64PosZero])
  ∧ extract_f64_list (fun _ => f64NaN)
      (ACol.listF64 [some [none, some f64PosZero]]) 0
      = .ok [f64NaN, f64PosZero]) := by
  refine ⟨⟨rfl, ?_⟩, ⟨rfl, ?_⟩⟩
  · exact C2_null_semantics.1 (fun _ => f64NaN) [none] 0 rfl
  · exact C2_null_semantics.2.1 (fun _ => f64NaN)
      [some [none, some f64PosZero]] 0 [none, some f64PosZero] rfl

/-! ### Claim C3: the 3-row record-array scenario -/

/-- Bit pattern of f64 1.0. -/
def f64One : F64 := ⟨0x3FF0000000000000, by norm_num⟩

/-- Bit pattern of f64 2.0. -/
def f64Two : F64 := ⟨0x4000000000000000, by norm_num⟩

/-- Bit pattern of f64 3.0. -/
def f64Three : F64 := ⟨0x4008000000000000, by norm_num⟩

/-- Bit pattern of f64 4.0. -/
def f64Four : F64 := ⟨0x4010000000000000, by norm_num⟩

/-- Bit pattern of f64 5.0. -/
def f64Five : F64 := ⟨0x4014000000000000, by norm_num⟩

/-- Bit pattern of f64 6.0. -/
def f64Six : F64 := ⟨0x4018000000000000, by norm_num⟩

/-- Bit pattern of f64 7.0. -/
def f64Seven : F64 := ⟨0x401C000000000000, by norm_num⟩

/-- Bit pattern of f64 8.0. -/
def f64Eight : F64 := ⟨0x4020000000000000, by norm_num⟩

/-- The parsed serde_json value of the 3-row scenario file of claim C3
(object keys in BTreeMap order as serde_json stores them). -/
def c3json : Json :=
  Json.arr
    [ Json.obj [("s", Json.str "A"),
        ("x", Json.arr [Json.num ⟨some 1, some f64One, "1"⟩,
                        Json.num ⟨some 2, some f64Two, "2"⟩]),
        ("y", Json.arr [Json.num ⟨some 3, some f64Three, "3"⟩,
                        Json.num ⟨some 4, some f64Four, "4"⟩])],
      Json.obj [("s", Json.str "B"),
        ("x", Json.arr [Json.num ⟨some 1, some f64One, "1"⟩,
                        Json.num ⟨some 2, some f64Two, "2"⟩]),
        ("y", Json.arr [Json.num ⟨some 5, some f64Five, "5"⟩,
                        Json.num ⟨some 6, some f64Six, "6"⟩])],
      Json.obj [
        ("x", Json.arr [Json.num ⟨some 1, some f64One, "1"⟩,
                        Json.num ⟨some 2, some f64Two, "2"⟩]),
        ("y", Json.arr [Json.num ⟨some 7, some f64Seven, "7"⟩,
                        Json.num ⟨some 8, some f64Eight, "8"⟩])] ]

/-- The dataset the scenario load produces. -/
def c3dataset : SpectralDataset :=
  SpectralDataset.from_spectra
    [ { x := [f64One, f64Two], y := [f64Three, f64Four],
        metadata := [("s", MetadataValue.String "A")] },
      { x := [f64One, f64Two], y := [f64Five, f64Six],
        metadata := [("s", MetadataValue.String "B")] },
      { x := [f64One, f64Two], y := [f64Seven, f64Eight], metadata := [] } ]

/-- Claim C3 counterexample: the scenario load succeeds, but the
distinct-value set of column s is exactly String("A"), String("B") -
without Null, because the third row omits s entirely and contributes
nothing to the index.  The claimed set with Null is therefore wrong. -/
theorem C3_counterexample :
    load_json (fun _ => "") c3json = .ok c3dataset
  ∧ mapFind? strCmp "s" c3dataset.unique_values
      = some [MetadataValue.String "A", MetadataValue.String "B"]
  ∧ some [MetadataValue.String "A", MetadataValue.String "B"]
      ≠ some [MetadataValue.Null, MetadataValue.String "A", MetadataValue.String "B"] := by
  refine ⟨rfl, rfl, by decide⟩

/-- Claim C3 (amended): loading the 3-row scenario file succeeds with a
3-row dataset whose column s has distinct-value set containing exactly
String("A") and String("B") (no Null: the row omitting s stores
nothing), and filtering s to String("A") alone yields visible indices
0. -/
theorem C3_scenario :
    load_json (fun _ => "") c3json = .ok c3dataset
  ∧ c3dataset.len = 3
  ∧ mapFind? strCmp "s" c3dataset.unique_values
      = some [MetadataValue.String "A", MetadataValue.String "B"]
  ∧ filtered_indices c3dataset [("s", [MetadataValue.String "A"])] = [0] := by
  refine ⟨rfl, rfl, rfl, rfl⟩

/-! ### Claims C7 and C10: colour mapping -/

theorem generate_palette_length (mk : Nat → Nat → Color32) (n : Nat) :
    (generate_palette mk n).length = n := by
  unfold generate_palette
  by_cases h : n = 0 <;> simp [h]

theorem mapFind?_zip_of_not_mem {α β : Type} {c : α → α → Ordering} (hc : LawCmp c)
    (v : α) : ∀ (S : List α) (pal : List β), v ∉ S → mapFind? c v (S.zip pal) = none
  | [], pal, _ => by cases pal <;> rfl
  | s :: S2, [], _ => rfl
  | s :: S2, p :: pal2, hv => by
    simp only [List.zip_cons_cons, mapFind?]
    have hne : ¬ c v s = .eq := fun he =>
      hv (by rw [(hc.eq_iff v s).mp he]; exact List.mem_cons_self s S2)
    rw [if_neg hne]
    exact mapFind?_zip_of_not_mem hc v S2 pal2 (fun h2 => hv (List.mem_cons_of_mem s h2))

theorem mapFind?_zip_mem {α β : Type} [DecidableEq α] {c : α → α → Ordering}
    (hc : LawCmp c) (v : α) :
    ∀ (S : List α) (pal : List β), v ∈ S →
      mapFind? c v (S.zip pal) = pal[S.indexOf v]?
  | [], pal, hv => absurd hv (List.not_mem_nil v)
  | s :: S2, [], _ => by simp [mapFind?]
  | s :: S2, p :: pal2, hv => by
    rw [List.zip_cons_cons]
    simp only [mapFind?]
    by_cases he : v = s
    · subst he
      rw [if_pos (hc.eq_refl v)]
      rw [List.indexOf_cons]
      simp
    · have hne : ¬ c v s = .eq := fun h2 => he ((hc.eq_iff v s).mp h2)
      rw [if_neg hne]
      have hv2 : v ∈ S2 := by
        rcases List.mem_cons.mp hv with h3 | h3
        · exact absurd h3 he
        · exact h3
      rw [mapFind?_zip_mem hc v S2 pal2 hv2]
      rw [List.indexOf_cons]
      have hsb : (s == v) = false := by
        simp only [beq_eq_false_iff_ne, ne_eq]
        exact fun h3 => he h3.symm
      rw [hsb]
      simp

/-- Claim C7: a ColorMap built from the distinct-value set S maps every
value outside S (including everything when S is empty) to the fixed gray
fallback, and every value of S to the palette colour at that value's
position in S. -/
theorem C7_color_for (mk : Nat → Nat → Color32) (col : String)
    (S : List MetadataValue)
    (hS : List.Chain' (fun a b => MetadataValue.cmp a b = .lt) S)
    (v : MetadataValue) :
    (v ∉ S → (ColorMap.new mk col S).color_for v = Color32.GRAY)
  ∧ (v ∈ S → (generate_palette mk S.length)[S.indexOf v]?
      = some ((ColorMap.new mk col S).color_for v))
  ∧ (S = [] → (ColorMap.new mk col S).color_for v = Color32.GRAY) := by
  refine ⟨?_, ?_, ?_⟩
  · intro hv
    unfold ColorMap.color_for ColorMap.new
    rw [mapFind?_zip_of_not_mem MetadataValue.cmp_lawful v S _ hv]
  · intro hv
    have hlt : S.indexOf v < (generate_palette mk S.length).length := by
      rw [generate_palette_length]
      exact List.indexOf_lt_length.mpr hv
    have hcc : (generate_palette mk S.length)[S.indexOf v]?
        = some ((generate_palette mk S.length).get ⟨S.indexOf v, hlt⟩) :=
      List.getElem?_eq_getElem hlt
    unfold ColorMap.color_for ColorMap.new
    rw [mapFind?_zip_mem MetadataValue.cmp_lawful v S _ hv]
    rw [hcc]
  · intro h
    subst h
    rfl

/-- Witness for C7 at the sorted two-element set containing Null and
Bool(true). -/
theorem C7_witness :
    List.Chain' (fun a b => MetadataValue.cmp a b = .lt)
      [MetadataValue.Null, MetadataValue.Bool true]
  ∧ MetadataValue.Integer 5 ∉ [MetadataValue.Null, MetadataValue.Bool true]
  ∧ (ColorMap.new (fun i n => ⟨i, n, 0, 255⟩) "c"
      [MetadataValue.Null, MetadataValue.Bool true]).color_for
        (MetadataValue.Integer 5) = Color32.GRAY
  ∧ MetadataValue.Bool true ∈ [MetadataValue.Null, MetadataValue.Bool true]
  ∧ (generate_palette (fun i n => ⟨i, n, 0, 255⟩) 2)[List.indexOf
        (MetadataValue.Bool true) [MetadataValue.Null, MetadataValue.Bool true]]?
      = some ((ColorMap.new (fun i n => ⟨i, n, 0, 255⟩) "c"
          [MetadataValue.Null, MetadataValue.Bool true]).color_for
            (MetadataValue.Bool true)) := by
  have hch : List.Chain' (fun a b => MetadataValue.cmp a b = .lt)
      [MetadataValue.Null, MetadataValue.Bool true] :=
    List.chain'_cons.mpr ⟨by decide, List.chain'_singleton _⟩
  have h := C7_color_for (fun i n => ⟨i, n, 0, 255⟩) "c"
    [MetadataValue.Null, MetadataValue.Bool true] hch
  refine ⟨hch, by decide, ?_, by decide, ?_⟩
  · exact (h (MetadataValue.Integer 5)).1 (by decide)
  · exact (h (MetadataValue.Bool true)).2.1 (by decide)

/-- Claim C10: legend_entries has one entry per value of the built
mapping, in ascending MetadataValue order, each labelled with the Display
rendering of its value and carrying the same colour color_for returns for
that value. -/
theorem C10_legend_entries (mk : Nat → Nat → Color32) (col : String)
    (S : List MetadataValue)
    (hS : List.Chain' (fun a b => MetadataValue.cmp a b = .lt) S)
    (ffmt : F64 → String) :
    ((ColorMap.new mk col S).legend_entries ffmt).length
        = (ColorMap.new mk col S).mapping.length
  ∧ List.Chain' (fun a b => MetadataValue.cmp a b = .lt)
      ((ColorMap.new mk col S).mapping.map Prod.fst)
  ∧ (∀ (i : Nat) (v : MetadataValue) (cc : Color32),
       (ColorMap.new mk col S).mapping[i]? = some (v, cc) →
       ((ColorMap.new mk col S).legend_entries ffmt)[i]?
           = some (MetadataValue.display ffmt v, cc)
       ∧ (ColorMap.new mk col S).color_for v = cc) := by
  have hfst : (ColorMap.new mk col S).mapping.map Prod.fst = S := by
    unfold ColorMap.new
    exact List.map_fst_zip S _ (le_of_eq (generate_palette_length mk S.length).symm)
  refine ⟨?_, ?_, ?_⟩
  · unfold ColorMap.legend_entries
    exact List.length_map _ _
  · rw [hfst]
    exact hS
  · intro i v cc hi
    constructor
    · unfold ColorMap.legend_entries
      rw [List.getElem?_map, hi]
      rfl
    · have hmem : (v, cc) ∈ (ColorMap.new mk col S).mapping :=
        List.get?_mem (by rw [List.get?_eq_getElem?]; exact hi)
      have hpair : (ColorMap.new mk col S).mapping.Pairwise
          (fun p q => p.1 ≠ q.1) := by
        have hys := pairwise_ne_of_chain' MetadataValue.cmp_lawful (hfst ▸ hS)
        rw [List.pairwise_map] at hys
        exact hys
      unfold ColorMap.color_for
      rw [mapFind?_of_mem MetadataValue.cmp_lawful hpair hmem]

/-- Witness for C10 at the sorted two-element set containing Null and
Bool(true). -/
theorem C10_witness :
    List.Chain' (fun a b => MetadataValue.cmp a b = .lt)
      [MetadataValue.Null, MetadataValue.Bool true]
  ∧ ((ColorMap.new (fun i n => ⟨i, n, 0, 255⟩) "c"
      [MetadataValue.Null, MetadataValue.Bool true]).legend_entries (fun _ => "f")).length
      = (ColorMap.new (fun i n => ⟨i, n, 0, 255⟩) "c"
          [MetadataValue.Null, MetadataValue.Bool true]).mapping.length
  ∧ (ColorMap.new (fun i n => ⟨i, n, 0, 255⟩) "c"
      [MetadataValue.Null, MetadataValue.Bool true]).mapping[0]?
      = some (MetadataValue.Null, ⟨0, 2, 0, 255⟩)
  ∧ ((ColorMap.new (fun i n => ⟨i, n, 0, 255⟩) "c"
      [MetadataValue.Null, MetadataValue.Bool true]).legend_entries (fun _ => "f"))[0]?
      = some (MetadataValue.display (fun _ => "f") MetadataValue.Null, ⟨0, 2, 0, 255⟩)
  ∧ (ColorMap.new (fun i n => ⟨i, n, 0, 255⟩) "c"
      [MetadataValue.Null, MetadataValue.Bool true]).color_for MetadataValue.Null
      = ⟨0, 2, 0, 255⟩ := by
  have hch : List.Chain' (fun a b => MetadataValue.cmp a b = .lt)
      [MetadataValue.Null, MetadataValue.Bool true] :=
    List.chain'_cons.mpr ⟨by decide, List.chain'_singleton _⟩
  have h := C10_legend_entries (fun i n => ⟨i, n, 0, 255⟩) "c"
    [MetadataValue.Null, MetadataValue.Bool true] hch (fun _ => "f")
  have h3 := h.2.2 0 MetadataValue.Null ⟨0, 2, 0, 255⟩ rfl
  exact ⟨hch, h.1, rfl, h3.1, h3.2⟩
